import Mathlib

/-!
Verification development for the agent step loop and message/context-window
management of `browser_use/agent/service.py` (class `Agent`).

The embedding below translates the source into pure Lean definitions:

* conversation messages become the inductive `Message` (text content; the
  multi-part image content used only by the vision path is orthogonal to the
  properties studied here and is not modelled);
* the tokenizer `self.llm.get_num_tokens` is an external collaborator and is
  passed around as an explicit parameter `tok : String → Nat`;
* the external world observed by one `step()` call (the browser's `get_state`,
  the LLM invocation, the controller's `act`) is an explicit `StepOutcome`
  value, and a whole run consumes an environment `env : Nat → StepOutcome`;
* Python exceptions become the inductive `PyErr`; an exception that propagates
  out of a method is an `Except.error`;
* mutation of `self` becomes explicit state passing on `AgentState`;
* `time.sleep` and the failure-counter increment of `_handle_step_error` are
  recorded as an ordered event trace so that temporal ordering is provable.

Classes that live in this repository but outside the provided source tree
(`browser_use/agent/prompts.py`, `browser_use/agent/views.py`, and the message
classes with their `include_in_memory` flag) are modelled from the spec; each
such definition carries a doc comment starting with `Modelled from the spec:`.
-/

/-- Decidable equality for `Except`, used to evaluate concrete runs of the
embedded operations. -/
instance {ε α : Type} [DecidableEq ε] [DecidableEq α] : DecidableEq (Except ε α)
  | .ok a, .ok b =>
    if h : a = b then .isTrue (by rw [h]) else .isFalse (by intro hc; cases hc; exact h rfl)
  | .ok _, .error _ => .isFalse (by intro hc; cases hc)
  | .error _, .ok _ => .isFalse (by intro hc; cases hc)
  | .error e, .error f =>
    if h : e = f then .isTrue (by rw [h]) else .isFalse (by intro hc; cases hc; exact h rfl)

/-- Conversation message (spec section 3, Conversation Message): tagged union
of System, Human (with its `include_in_memory` flag) and AI messages.
Content is modelled as text; the image parts of vision messages play no role
in the claims studied here. -/
inductive Message where
  | system (content : String)
  | human (content : String) (include_in_memory : Bool)
  | ai (content : String)
  deriving DecidableEq, Repr

/-- Content of a message (the `content` attribute). -/
def Message.content : Message → String
  | .system c => c
  | .human c _ => c
  | .ai c => c

/-- Replace the content of a message, keeping everything else (models the
in-place assignment `current_message.content = ...` of the source). -/
def Message.setContent : Message → String → Message
  | .system _, c => .system c
  | .human _ mem, c => .human c mem
  | .ai _, c => .ai c

/-- True iff the message is a System message. -/
def Message.isSystem : Message → Bool
  | .system _ => true
  | _ => false

/-- True iff the message is a Human message. -/
def Message.isHuman : Message → Bool
  | .human _ _ => true
  | _ => false

/-- Modelled from the spec: the Human message class (the concrete message
model with its `include_in_memory` flag is not under `src/`; spec section 3
gives `Human(content, include_in_memory : bool)`).  The source constructs
Human messages without passing the flag (`HumanMessage(content=...)` in
`set_task` and `_update_messages_with_result`); per the pinning invariant of
spec section 4.4 ("conversation always starts with ... one Human task
message; both are permanently pinned and never evicted") the default flag of
such a construction is `true`. -/
def HumanMessage (content : String) : Message :=
  Message.human content true

/-- Langchain's `get_buffer_string` applied to a single message (external
library function used by the source both for token counting and for the
binary-search slicing): the role label, a colon and a space, then the
content. -/
def get_buffer_string_one (m : Message) : String :=
  match m with
  | .system c => "System: " ++ c
  | .human c _ => "Human: " ++ c
  | .ai c => "AI: " ++ c

/-- Character-indexed prefix of a string, as Python's `s[:n]` slicing
(written on the underlying character list so that it evaluates by kernel
reduction). -/
def strTake (s : String) (n : Nat) : String :=
  ⟨s.data.take n⟩

/-- Result of one controller action (spec section 3, ActionResult). -/
structure ActionResult where
  extracted_content : Option String
  error : Option String
  include_in_memory : Bool
  is_done : Bool
  deriving DecidableEq, Repr

/-- Modelled from the spec: the parsed structured LLM decision
(`AgentOutput` of `views.py`, not under `src/`); the agent only ever
serializes it (`model_dump_json`) into an AI message and hands it to the
controller, so it is modelled by its serialized form. -/
structure AgentOutput where
  dump : String
  deriving DecidableEq, Repr

/-- Browser state snapshot (external collaborator, spec section 3): only the
fields that flow into the observation message are kept. -/
structure BrowserState where
  url : String
  elements : String
  deriving DecidableEq, Repr

/-- One history entry (spec section 3, Agent History Entry; source
`_make_history_item`). -/
structure AgentHistory where
  model_output : Option AgentOutput
  result : ActionResult
  state : BrowserState
  deriving DecidableEq, Repr

/-- Python exceptions relevant to the step boundary, following the
`isinstance` classification of `_handle_step_error`: `ValidationError`,
`ValueError`, `RateLimitError`, and every other `Exception`. -/
inductive PyErr where
  | validationError (msg : String)
  | valueError (msg : String)
  | rateLimitError (msg : String)
  | otherError (msg : String)
  deriving DecidableEq, Repr

/-- Exceptions that `_cut_input_messages` itself can raise: the explicit
`ValueError('System message is too long')` and the `IndexError` of an
out-of-range list subscript on degenerate inputs. -/
inductive CutError where
  | systemTooLong
  | indexError
  deriving DecidableEq, Repr

/-- The Python exception corresponding to a `CutError`. -/
def CutError.toPyErr : CutError → PyErr
  | .systemTooLong => .valueError ("System message is too long")
  | .indexError => .otherError ("list index out of range")

/-- Observable side effects of `_handle_step_error`: the synchronous
`time.sleep(self.retry_delay)` back-off and the increment of
`self.consecutive_failures`, in program order. -/
inductive AgentEvent where
  | sleep (seconds : Nat)
  | incrFailures
  deriving DecidableEq, Repr

/-- The mutable fields of an `Agent` instance that the step loop touches,
plus the immutable configuration (`task`, system prompt text, `max_failures`,
`retry_delay`, `max_input_tokens`) and the event trace. -/
structure AgentState where
  task : String
  sysContent : String
  messages : List Message
  history : List AgentHistory
  n_steps : Nat
  consecutive_failures : Nat
  max_failures : Nat
  retry_delay : Nat
  max_input_tokens : Nat
  trace : List AgentEvent
  deriving DecidableEq, Repr

/-- What the external calls inside the `try` block of `step()` do, once
`get_state` has succeeded: the LLM invocation raises, or the LLM succeeds
and `controller.act` raises, or both succeed. -/
inductive TryOutcome where
  | llmRaise (e : PyErr)
  | actRaise (out : AgentOutput) (e : PyErr)
  | actOk (out : AgentOutput) (result : ActionResult)
  deriving DecidableEq, Repr

/-- What the external world does during one `step()` call:
`controller.browser.get_state` raises (this call sits before the `try`
block), or it returns a state and the calls inside the `try` behave as the
given `TryOutcome`. -/
inductive StepOutcome where
  | stateRaise (e : PyErr)
  | stateOk (state : BrowserState) (t : TryOutcome)
  deriving DecidableEq, Repr

/-- True iff the outcome is a `get_state` exception. -/
def StepOutcome.isStateRaise : StepOutcome → Bool
  | .stateRaise _ => true
  | .stateOk _ _ => false

/-- Modelled from the spec: `AgentError.format_error` (`views.py`, not under
`src/`) renders an exception into a non-empty human-readable message that is
stored in `ActionResult.error` and folded into the conversation. -/
def AgentError.format_error : PyErr → String
  | .validationError m => "Invalid model output format: " ++ m
  | .valueError m => "Value error: " ++ m
  | .rateLimitError m => "Rate limit reached: " ++ m
  | .otherError m => "Unexpected error: " ++ m

/-- Modelled from the spec: `AgentMessagePrompt(state).get_user_message()`
(`prompts.py`, not under `src/`) serializes the browser state into one Human
observation message (spec section 4.4, "Composing an observation"). -/
def AgentMessagePrompt.get_user_message (state : BrowserState) : Message :=
  HumanMessage ("Current url: " ++ state.url ++ "\n" ++ state.elements)

/-- Python truthiness of an optional string field (`if result.error:` is
false both for `None` and for the empty string). -/
def truthy : Option String → Bool
  | none => false
  | some s => !(s = "")

/-- Token count of one message (`get_message_tokens` inside
`_calc_token_count`, text branch: the tokenizer applied to
`get_buffer_string([m])`). -/
def get_message_tokens (tok : String → Nat) (m : Message) : Nat :=
  tok (get_buffer_string_one m)

/-- Source `Agent._calc_token_count` (service.py lines 245-261, text branch):
per-message token counts, in order. -/
def Agent._calc_token_count (tok : String → Nat) (messages : List Message) : List Nat :=
  messages.map (get_message_tokens tok)

/-- The filter predicate of `_update_messages_with_result` (service.py line
176): keep a message iff it is not a Human message or its
`include_in_memory` flag is set. -/
def Message.keepInMemory : Message → Bool
  | .human _ mem => mem
  | _ => true

/-- Source `Agent._update_messages_with_result` (service.py lines 170-187):
drop every Human message whose `include_in_memory` flag is false, then append
a Human message for the extracted content if truthy, one for the error if
truthy, and a single empty Human message if neither is truthy. -/
def Agent._update_messages_with_result (msgs : List Message) (result : ActionResult) :
    List Message :=
  let msgs := msgs.filter Message.keepInMemory
  let msgs := if truthy result.extracted_content then
      msgs ++ [HumanMessage (result.extracted_content.getD (""))]
    else msgs
  let msgs := if truthy result.error then
      msgs ++ [HumanMessage (result.error.getD (""))]
    else msgs
  if !truthy result.extracted_content && !truthy result.error then
    msgs ++ [HumanMessage ("")]
  else msgs

/-- Source `Agent._handle_step_error` (service.py lines 152-168): format the
error, classify it by `isinstance`, sleep `retry_delay` seconds first when it
is a rate-limit error, increment the consecutive-failure counter, and return
the synthetic `ActionResult(error=..., include_in_memory=True)`.  The emitted
`AgentEvent` list records the side effects in program order. -/
def Agent._handle_step_error (e : PyErr) (consecutive_failures retry_delay : Nat) :
    List AgentEvent × Nat × ActionResult :=
  let error_msg := AgentError.format_error e
  let result : ActionResult :=
    { extracted_content := none, error := some error_msg,
      include_in_memory := true, is_done := false }
  match e with
  | .validationError _ => ([.incrFailures], consecutive_failures + 1, result)
  | .valueError _ => ([.incrFailures], consecutive_failures + 1, result)
  | .rateLimitError _ =>
      ([.sleep retry_delay, .incrFailures], consecutive_failures + 1, result)
  | .otherError _ => ([.incrFailures], consecutive_failures + 1, result)

/-- Fuel-driven implementation of the binary-search loop; the loop of the
source strictly shrinks `high - low`, so any fuel of at least `high - low`
computes the loop's result (see `bsearch_eq` for the loop's defining
equation). -/
def bsearchAux (pred : Nat → Bool) : Nat → Nat → Nat → Nat
  | 0, low, _ => low
  | fuel + 1, low, high =>
    if low < high then
      let mid := (low + high) / 2
      if pred mid then bsearchAux pred fuel low mid
      else bsearchAux pred fuel (mid + 1) high
    else low

/-- The binary search of `_cut_input_messages` (service.py lines 221-228):
`while low < high: mid = (low + high) // 2; if pred(mid): high = mid else:
low = mid + 1`; the final value of `low` is returned. -/
def bsearch (pred : Nat → Bool) (low high : Nat) : Nat :=
  bsearchAux pred (high - low) low high

/-- Any sufficient fuel computes the same binary-search result. -/
theorem bsearchAux_fuel (pred : Nat → Bool) :
    ∀ f1 f2 low high, high - low ≤ f1 → high - low ≤ f2 →
      bsearchAux pred f1 low high = bsearchAux pred f2 low high := by
  intro f1
  induction f1 with
  | zero =>
    intro f2 low high h1 h2
    have hlh : ¬ low < high := by omega
    cases f2 with
    | zero => rfl
    | succ f2 => simp [bsearchAux, hlh]
  | succ f1 ih =>
    intro f2 low high h1 h2
    cases f2 with
    | zero =>
      have hlh : ¬ low < high := by omega
      simp [bsearchAux, hlh]
    | succ f2 =>
      by_cases hlh : low < high
      · simp only [bsearchAux, if_pos hlh]
        cases hp : pred ((low + high) / 2) with
        | true =>
          simp only [hp, if_true]
          exact ih f2 low ((low + high) / 2) (by omega) (by omega)
        | false =>
          simp only [hp, Bool.false_eq_true, if_false]
          exact ih f2 ((low + high) / 2 + 1) high (by omega) (by omega)
      · simp [bsearchAux, hlh]

/-- `bsearch` satisfies the defining equation of the source's `while` loop. -/
theorem bsearch_eq (pred : Nat → Bool) (low high : Nat) :
    bsearch pred low high =
      if low < high then
        let mid := (low + high) / 2
        if pred mid then bsearch pred low mid
        else bsearch pred (mid + 1) high
      else low := by
  by_cases hlh : low < high
  · obtain ⟨k, hk⟩ : ∃ k, high - low = k + 1 := ⟨high - low - 1, by omega⟩
    simp only [bsearch, hk, bsearchAux, if_pos hlh]
    cases hp : pred ((low + high) / 2) with
    | true =>
      simp only [hp, if_true]
      exact bsearchAux_fuel pred k ((low + high) / 2 - low) low ((low + high) / 2)
        (by omega) (by omega)
    | false =>
      simp only [hp, Bool.false_eq_true, if_false]
      exact bsearchAux_fuel pred k (high - ((low + high) / 2 + 1))
        ((low + high) / 2 + 1) high (by omega) (by omega)
  · rw [if_neg hlh]
    have h0 : high - low = 0 := by omega
    simp only [bsearch, h0]
    rfl

/-- Fuel-driven implementation of the eviction loop; each iteration removes
one element, so any fuel of at least the list length computes the loop's
result (see `evictLoop_eq` for the loop's defining equation). -/
def evictLoopAux (maxTok : Nat) : Nat → List Nat → List Message →
    List Nat × List Message
  | 0, tcs, msgs => (tcs, msgs)
  | fuel + 1, tcs, msgs =>
    if maxTok < tcs.sum ∧ 3 < tcs.length then
      evictLoopAux maxTok fuel (tcs.eraseIdx 2) (msgs.eraseIdx 2)
    else (tcs, msgs)

/-- The eviction loop of `_cut_input_messages` (service.py lines 234-238):
`while sum(token_count) > max_input_tokens and len(token_count) > 3:
token_count.pop(2); input_messages.pop(2)`. -/
def evictLoop (maxTok : Nat) (tcs : List Nat) (msgs : List Message) :
    List Nat × List Message :=
  evictLoopAux maxTok tcs.length tcs msgs

/-- Any fuel of at least `tcs.length` computes the same eviction result. -/
theorem evictLoopAux_fuel (maxTok : Nat) :
    ∀ f1 f2 tcs msgs, tcs.length ≤ f1 → tcs.length ≤ f2 →
      evictLoopAux maxTok f1 tcs msgs = evictLoopAux maxTok f2 tcs msgs := by
  intro f1
  induction f1 with
  | zero =>
    intro f2 tcs msgs h1 h2
    have hlen : tcs.length = 0 := by omega
    have hcond : ¬ (maxTok < tcs.sum ∧ 3 < tcs.length) := by omega
    cases f2 with
    | zero => rfl
    | succ f2 => simp [evictLoopAux, hcond]
  | succ f1 ih =>
    intro f2 tcs msgs h1 h2
    cases f2 with
    | zero =>
      have hlen : tcs.length = 0 := by omega
      have hcond : ¬ (maxTok < tcs.sum ∧ 3 < tcs.length) := by omega
      simp [evictLoopAux, hcond]
    | succ f2 =>
      by_cases hcond : maxTok < tcs.sum ∧ 3 < tcs.length
      · have hlen : (tcs.eraseIdx 2).length = tcs.length - 1 := by
          rw [List.length_eraseIdx]
          have : 2 < tcs.length := by omega
          simp [this]
        simp only [evictLoopAux, if_pos hcond]
        exact ih f2 (tcs.eraseIdx 2) (msgs.eraseIdx 2) (by omega) (by omega)
      · simp [evictLoopAux, hcond]

/-- `evictLoop` satisfies the defining equation of the source's `while`
loop. -/
theorem evictLoop_eq (maxTok : Nat) (tcs : List Nat) (msgs : List Message) :
    evictLoop maxTok tcs msgs =
      if maxTok < tcs.sum ∧ 3 < tcs.length then
        evictLoop maxTok (tcs.eraseIdx 2) (msgs.eraseIdx 2)
      else (tcs, msgs) := by
  by_cases hcond : maxTok < tcs.sum ∧ 3 < tcs.length
  · have hlen : (tcs.eraseIdx 2).length = tcs.length - 1 := by
      rw [List.length_eraseIdx]
      simp only [if_pos (show 2 < tcs.length by omega)]
    obtain ⟨k, hk⟩ : ∃ k, tcs.length = k + 1 := ⟨tcs.length - 1, by omega⟩
    rw [if_pos hcond]
    show evictLoopAux maxTok tcs.length tcs msgs = evictLoop maxTok (tcs.eraseIdx 2) (msgs.eraseIdx 2)
    rw [hk]
    show (if maxTok < tcs.sum ∧ 3 < tcs.length then
        evictLoopAux maxTok k (tcs.eraseIdx 2) (msgs.eraseIdx 2)
      else (tcs, msgs)) = _
    rw [if_pos hcond]
    exact evictLoopAux_fuel maxTok k (tcs.eraseIdx 2).length (tcs.eraseIdx 2)
      (msgs.eraseIdx 2) (by omega) (by omega)
  · rw [if_neg hcond]
    show evictLoopAux maxTok tcs.length tcs msgs = (tcs, msgs)
    cases htc : tcs.length with
    | zero => rfl
    | succ n =>
      show (if maxTok < tcs.sum ∧ 3 < tcs.length then
          evictLoopAux maxTok n (tcs.eraseIdx 2) (msgs.eraseIdx 2)
        else (tcs, msgs)) = (tcs, msgs)
      rw [if_neg hcond]

/-- Source `Agent._cut_input_messages` (service.py lines 199-243).  Returns
`(new self.messages baseline, returned input_messages)`, or the raised
exception.  Mirrors the source exactly: raise `ValueError` when the first
message alone exceeds the budget; when system + task + newest message exceed
the budget, binary-search a cut index over the buffer string of the newest
message, truncate it, and collapse to `[system, goal, current]` with baseline
`[system, goal]`; otherwise run the index-2 eviction loop and persist the
retained list minus its last element.  (The source aliasing of
`goal_message` and `current_message` on a degenerate 2-element input is not
modelled; every call site passes at least 3 messages.) -/
def Agent._cut_input_messages (tok : String → Nat) (maxTok : Nat)
    (input : List Message) : Except CutError (List Message × List Message) :=
  match input with
  | [] => .error .indexError
  | m0 :: rest =>
    if maxTok < get_message_tokens tok m0 then .error .systemTooLong
    else
      match rest with
      | [] => .error .indexError
      | m1 :: rest1 =>
        let t0 := get_message_tokens tok m0
        let t1 := get_message_tokens tok m1
        let current := ((m1 :: rest1).getLast?).getD m1
        let tlast := get_message_tokens tok current
        if maxTok < t0 + t1 + tlast then
          let available : Int := (maxTok : Int) - (t0 : Int) - (t1 : Int)
          let message_content := get_buffer_string_one current
          let low := bsearch
            (fun mid => decide (available < (tok (strTake message_content mid) : Int)))
            0 current.content.length
          let current' := current.setContent (strTake current.content low)
          .ok ([m0, m1], [m0, m1, current'])
        else
          let tc := Agent._calc_token_count tok input
          let res := evictLoop maxTok tc input
          .ok (res.2.dropLast, res.2)

/-- The state after the tail of `step()` shared by every non-propagating
path: `self._update_messages_with_result(result)` followed by
`self._make_history_item(model_output, state, result)` (service.py lines
149-150 and 189-197). -/
def Agent.finishStep (st : AgentState) (mo : Option AgentOutput)
    (state : BrowserState) (result : ActionResult) : AgentState :=
  let st1 := { st with messages := Agent._update_messages_with_result st.messages result }
  { st1 with history := st1.history ++ [{ model_output := mo, result := result, state := state }] }

/-- The `except Exception` arm of `step()` (service.py lines 137-147)
followed by the shared tail: classify and handle the error, set
`model_output = None`, then record the synthetic result. -/
def Agent.handleAndFinish (st : AgentState) (state : BrowserState) (e : PyErr) :
    AgentState :=
  match Agent._handle_step_error e st.consecutive_failures st.retry_delay with
  | (events, failures, result) =>
    Agent.finishStep
      { st with consecutive_failures := failures, trace := st.trace ++ events }
      none state result

/-- Source `Agent.step` (service.py lines 123-150), given the behaviour of
the external calls.  `get_state` sits before the `try` block, so its
exception propagates (`Except.error`).  Inside the `try`:
`get_next_action` first builds the observation message, then calls
`_cut_input_messages` (whose exception is caught by the handler), persists
the returned baseline into `self.messages`, invokes the LLM, appends the AI
message and advances `n_steps` on LLM success, then `controller.act` runs.
Any exception inside the `try` flows through `_handle_step_error`; a fully
successful step resets `consecutive_failures` to 0.  Every path ends with
`_update_messages_with_result` and `_make_history_item`. -/
def Agent.step (tok : String → Nat) (o : StepOutcome) (st : AgentState) :
    Except PyErr AgentState :=
  match o with
  | .stateRaise e => .error e
  | .stateOk state t =>
    let newMessage := AgentMessagePrompt.get_user_message state
    let input := st.messages ++ [newMessage]
    match Agent._cut_input_messages tok st.max_input_tokens input with
    | .error ce => .ok (Agent.handleAndFinish st state ce.toPyErr)
    | .ok (base, _cutMessages) =>
      let st1 := { st with messages := base }
      match t with
      | .llmRaise e => .ok (Agent.handleAndFinish st1 state e)
      | .actRaise out e =>
        let st2 := { st1 with
          messages := st1.messages ++ [Message.ai out.dump],
          n_steps := st1.n_steps + 1 }
        .ok (Agent.handleAndFinish st2 state e)
      | .actOk out result =>
        let st2 := { st1 with
          messages := st1.messages ++ [Message.ai out.dump],
          n_steps := st1.n_steps + 1 }
        let st3 := { st2 with consecutive_failures := 0 }
        .ok (Agent.finishStep st3 (some out) state result)

/-- Source `Agent._too_many_failures` (service.py lines 500-505). -/
def Agent._too_many_failures (st : AgentState) : Bool :=
  st.max_failures ≤ st.consecutive_failures

/-- Source `Agent._is_task_complete` (service.py lines 507-509):
`bool(self.history and self.history[-1].result.is_done)`. -/
def Agent._is_task_complete (st : AgentState) : Bool :=
  match st.history.getLast? with
  | some h => h.result.is_done
  | none => false

/-- The `for step in range(max_steps)` loop of `Agent.run` (service.py lines
474-486): before each step stop if there are too many consecutive failures,
run the step (whose exception propagates past `run`), and after each step
stop if the task is complete.  `k` is the index of the next environment
outcome to consume. -/
def Agent.runLoop (tok : String → Nat) (env : Nat → StepOutcome)
    (st : AgentState) (k fuel : Nat) : Except PyErr AgentState :=
  match fuel with
  | 0 => .ok st
  | fuel + 1 =>
    if Agent._too_many_failures st then .ok st
    else
      match Agent.step tok (env k) st with
      | .error e => .error e
      | .ok st1 =>
        if Agent._is_task_complete st1 then .ok st1
        else Agent.runLoop tok env st1 (k + 1) fuel

/-- Source `Agent.run` (service.py lines 462-498): run the loop and return
the final state (whose `history` field is the returned history list); an
exception from a step escapes as `Except.error`. -/
def Agent.run (tok : String → Nat) (env : Nat → StepOutcome)
    (st : AgentState) (max_steps : Nat) : Except PyErr AgentState :=
  Agent.runLoop tok env st 0 max_steps

/-- Initial agent state as built by `Agent.__init__` together with
`_initialize_messages` and `set_task` (service.py lines 52-121): the message
list is the system message followed by the task message, history is empty,
`n_steps` is 1 and the failure counter is 0. -/
def Agent.mk (task sysContent : String)
    (max_failures retry_delay max_input_tokens : Nat) : AgentState :=
  { task := task
    sysContent := sysContent
    messages := [Message.system sysContent, HumanMessage ("Your task is: " ++ task)]
    history := []
    n_steps := 1
    consecutive_failures := 0
    max_failures := max_failures
    retry_delay := retry_delay
    max_input_tokens := max_input_tokens
    trace := [] }

/-! ### Helper lemmas about the eviction loop -/

/-- Erasing index 2 keeps the first two elements and the tail from index 3
onward. -/
theorem eraseIdx_two {α : Type} (l : List α) :
    l.eraseIdx 2 = l.take 2 ++ l.drop 3 := by
  match l with
  | [] => rfl
  | [a] => rfl
  | [a, b] => rfl
  | a :: b :: c :: t => rfl

/-- Erasing index 2 does not change the first two elements. -/
theorem eraseIdx_two_take {α : Type} (l : List α) :
    (l.eraseIdx 2).take 2 = l.take 2 := by
  match l with
  | [] => rfl
  | [a] => rfl
  | [a, b] => rfl
  | a :: b :: c :: t => simp [eraseIdx_two]

/-- Dropping `2 + j` elements after erasing index 2 is dropping `3 + j`
elements of the original list. -/
theorem eraseIdx_two_drop {α : Type} (l : List α) (j : Nat) :
    (l.eraseIdx 2).drop (2 + j) = l.drop (3 + j) := by
  match l with
  | [] => simp
  | [a] =>
    rw [show 2 + j = j + 1 + 1 by omega, show 3 + j = j + 2 + 1 by omega]
    simp
  | [a, b] =>
    rw [show 2 + j = j + 1 + 1 by omega, show 3 + j = j + 2 + 1 by omega]
    simp
  | a :: b :: c :: t =>
    show (a :: b :: t).drop (2 + j) = (a :: b :: c :: t).drop (3 + j)
    rw [show 2 + j = j + 1 + 1 by omega, show 3 + j = j + 1 + 1 + 1 by omega]
    simp [List.drop_succ_cons]

/-- The eviction loop only ever removes the element at index 2: its result is
the first two elements followed by a suffix of the input, and when at least
one element was removed the input had strictly more than 3 elements for each
removal. -/
theorem evictLoopAux_take_drop (maxTok : Nat) :
    ∀ fuel tcs msgs, tcs.length ≤ fuel →
      ∃ k, (evictLoopAux maxTok fuel tcs msgs).1 = tcs.take 2 ++ tcs.drop (2 + k)
        ∧ (evictLoopAux maxTok fuel tcs msgs).2 = msgs.take 2 ++ msgs.drop (2 + k)
        ∧ (k = 0 ∨ 3 + k ≤ tcs.length) := by
  intro fuel
  induction fuel with
  | zero =>
    intro tcs msgs h
    exact ⟨0, by simp [evictLoopAux], by simp [evictLoopAux], Or.inl rfl⟩
  | succ fuel ih =>
    intro tcs msgs h
    by_cases hcond : maxTok < tcs.sum ∧ 3 < tcs.length
    · have hlen : (tcs.eraseIdx 2).length = tcs.length - 1 := by
        rw [List.length_eraseIdx]
        simp only [if_pos (show 2 < tcs.length by omega)]
      obtain ⟨k, h1, h2, h3⟩ := ih (tcs.eraseIdx 2) (msgs.eraseIdx 2) (by omega)
      refine ⟨k + 1, ?_, ?_, ?_⟩
      · simp only [evictLoopAux, if_pos hcond]
        rw [h1, eraseIdx_two_take, eraseIdx_two_drop, show 2 + (k + 1) = 3 + k by omega]
      · simp only [evictLoopAux, if_pos hcond]
        rw [h2, eraseIdx_two_take, eraseIdx_two_drop, show 2 + (k + 1) = 3 + k by omega]
      · right
        rcases h3 with h3 | h3
        · omega
        · omega
    · exact ⟨0, by simp [evictLoopAux, hcond], by simp [evictLoopAux, hcond], Or.inl rfl⟩

/-- When the loop finishes, its own continuation condition is false. -/
theorem evictLoopAux_stop (maxTok : Nat) :
    ∀ fuel tcs msgs, tcs.length ≤ fuel →
      ¬ (maxTok < (evictLoopAux maxTok fuel tcs msgs).1.sum
          ∧ 3 < (evictLoopAux maxTok fuel tcs msgs).1.length) := by
  intro fuel
  induction fuel with
  | zero =>
    intro tcs msgs h
    have : tcs.length = 0 := by omega
    simp only [evictLoopAux]
    omega
  | succ fuel ih =>
    intro tcs msgs h
    by_cases hcond : maxTok < tcs.sum ∧ 3 < tcs.length
    · have hlen : (tcs.eraseIdx 2).length = tcs.length - 1 := by
        rw [List.length_eraseIdx]
        simp only [if_pos (show 2 < tcs.length by omega)]
      simp only [evictLoopAux, if_pos hcond]
      exact ih (tcs.eraseIdx 2) (msgs.eraseIdx 2) (by omega)
    · simp only [evictLoopAux, if_neg hcond]
      exact hcond

/-- A loop that starts with its continuation condition false returns its
input unchanged. -/
theorem evictLoopAux_noop (maxTok fuel : Nat) (tcs : List Nat) (msgs : List Message)
    (hcond : ¬ (maxTok < tcs.sum ∧ 3 < tcs.length)) :
    evictLoopAux maxTok fuel tcs msgs = (tcs, msgs) := by
  cases fuel with
  | zero => rfl
  | succ fuel => simp only [evictLoopAux, if_neg hcond]

/-- The eviction loop never lengthens the message list. -/
theorem evictLoopAux_len_le (maxTok : Nat) :
    ∀ fuel tcs msgs, (evictLoopAux maxTok fuel tcs msgs).2.length ≤ msgs.length := by
  intro fuel
  induction fuel with
  | zero => intro tcs msgs; simp [evictLoopAux]
  | succ fuel ih =>
    intro tcs msgs
    by_cases hcond : maxTok < tcs.sum ∧ 3 < tcs.length
    · simp only [evictLoopAux, if_pos hcond]
      calc (evictLoopAux maxTok fuel (tcs.eraseIdx 2) (msgs.eraseIdx 2)).2.length
          ≤ (msgs.eraseIdx 2).length := ih (tcs.eraseIdx 2) (msgs.eraseIdx 2)
        _ ≤ msgs.length := List.length_eraseIdx_le msgs 2
    · simp [evictLoopAux, hcond]

/-- Starting from at least 3 messages (with token counts in sync), the
eviction loop retains at least 3 messages. -/
theorem evictLoopAux_len_ge (maxTok : Nat) :
    ∀ fuel tcs msgs, tcs.length = msgs.length → 3 ≤ msgs.length →
      3 ≤ (evictLoopAux maxTok fuel tcs msgs).2.length := by
  intro fuel
  induction fuel with
  | zero => intro tcs msgs hsync h3; simpa [evictLoopAux] using h3
  | succ fuel ih =>
    intro tcs msgs hsync h3
    by_cases hcond : maxTok < tcs.sum ∧ 3 < tcs.length
    · have hlt : 2 < tcs.length := by omega
      have hlm : 2 < msgs.length := by omega
      have hlen1 : (tcs.eraseIdx 2).length = tcs.length - 1 := by
        rw [List.length_eraseIdx]
        simp only [if_pos hlt]
      have hlen2 : (msgs.eraseIdx 2).length = msgs.length - 1 := by
        rw [List.length_eraseIdx]
        simp only [if_pos hlm]
      simp only [evictLoopAux, if_pos hcond]
      exact ih (tcs.eraseIdx 2) (msgs.eraseIdx 2) (by omega) (by omega)
    · simpa [evictLoopAux, hcond] using h3

/-- A smaller budget never retains more messages than a larger one. -/
theorem evictLoopAux_mono (b1 b2 : Nat) (hb : b1 ≤ b2) :
    ∀ fuel tcs msgs,
      (evictLoopAux b1 fuel tcs msgs).2.length ≤ (evictLoopAux b2 fuel tcs msgs).2.length := by
  intro fuel
  induction fuel with
  | zero => intro tcs msgs; simp [evictLoopAux]
  | succ fuel ih =>
    intro tcs msgs
    by_cases hcond2 : b2 < tcs.sum ∧ 3 < tcs.length
    · have hcond1 : b1 < tcs.sum ∧ 3 < tcs.length := ⟨by omega, hcond2.2⟩
      simp only [evictLoopAux, if_pos hcond1, if_pos hcond2]
      exact ih (tcs.eraseIdx 2) (msgs.eraseIdx 2)
    · simp only [evictLoopAux, if_neg hcond2]
      by_cases hcond1 : b1 < tcs.sum ∧ 3 < tcs.length
      · simp only [evictLoopAux, if_pos hcond1]
        calc (evictLoopAux b1 fuel (tcs.eraseIdx 2) (msgs.eraseIdx 2)).2.length
            ≤ (msgs.eraseIdx 2).length := evictLoopAux_len_le b1 fuel _ _
          _ ≤ msgs.length := List.length_eraseIdx_le msgs 2
      · simp only [evictLoopAux, if_neg hcond1]
        exact Nat.le_refl _

/-! ### Helper lemmas about the binary search -/

/-- Loop invariant of the source's binary search: for a monotone predicate,
starting from a window whose left part is all-false, the result `r` lies in
the window, everything below `r` is false, and `r` itself is true unless the
search ran off the right end.  In other words `r` is the least index where
the predicate holds, capped at `high`. -/
theorem bsearchAux_spec (pred : Nat → Bool)
    (mono : ∀ i j, i ≤ j → pred i = true → pred j = true) :
    ∀ fuel low high, high - low ≤ fuel → low ≤ high →
      (∀ i, i < low → pred i = false) →
      low ≤ bsearchAux pred fuel low high
        ∧ bsearchAux pred fuel low high ≤ high
        ∧ (∀ i, i < bsearchAux pred fuel low high → pred i = false)
        ∧ (bsearchAux pred fuel low high < high →
            pred (bsearchAux pred fuel low high) = true) := by
  intro fuel
  induction fuel with
  | zero =>
    intro low high hf hlh hl
    have hhl : high = low := by omega
    subst hhl
    simp only [bsearchAux]
    exact ⟨Nat.le_refl _, Nat.le_refl _, hl, fun h => absurd h (Nat.lt_irrefl _)⟩
  | succ fuel ih =>
    intro low high hf hlh hl
    by_cases hlt : low < high
    · simp only [bsearchAux, if_pos hlt]
      cases hp : pred ((low + high) / 2) with
      | true =>
        simp only [hp, if_true]
        obtain ⟨ih1, ih2, ih3, ih4⟩ :=
          ih low ((low + high) / 2) (by omega) (by omega) hl
        refine ⟨ih1, by omega, ih3, ?_⟩
        intro hr
        by_cases hmid : bsearchAux pred fuel low ((low + high) / 2) < (low + high) / 2
        · exact ih4 hmid
        · have : bsearchAux pred fuel low ((low + high) / 2) = (low + high) / 2 := by omega
          rw [this]
          exact hp
      | false =>
        simp only [hp, Bool.false_eq_true, if_false]
        have hl' : ∀ i, i < (low + high) / 2 + 1 → pred i = false := by
          intro i hi
          by_cases hil : i < low
          · exact hl i hil
          · cases hq : pred i with
            | false => rfl
            | true =>
              have : pred ((low + high) / 2) = true := mono i _ (by omega) hq
              rw [hp] at this
              cases this
        obtain ⟨ih1, ih2, ih3, ih4⟩ :=
          ih ((low + high) / 2 + 1) high (by omega) (by omega) hl'
        exact ⟨by omega, ih2, ih3, ih4⟩
    · simp only [bsearchAux, if_neg hlt]
      exact ⟨Nat.le_refl _, by omega, hl, fun h => absurd h hlt⟩

/-- `bsearch` from 0 computes the least index where a monotone predicate
holds, capped at `high`. -/
theorem bsearch_spec (pred : Nat → Bool)
    (mono : ∀ i j, i ≤ j → pred i = true → pred j = true) (high : Nat) :
    bsearch pred 0 high ≤ high
      ∧ (∀ i, i < bsearch pred 0 high → pred i = false)
      ∧ (bsearch pred 0 high < high → pred (bsearch pred 0 high) = true) := by
  obtain ⟨h1, h2, h3, h4⟩ :=
    bsearchAux_spec pred mono (high - 0) 0 high (Nat.le_refl _) (Nat.zero_le _)
      (fun i hi => absurd hi (by omega))
  exact ⟨h2, h3, h4⟩

/-! ### Branch characterizations of the budget cut -/

/-- If the first message alone exceeds the budget, `_cut_input_messages`
raises `ValueError('System message is too long')`. -/
theorem cut_sysTooLong (tok : String → Nat) (maxTok : Nat) (m0 : Message)
    (rest : List Message) (h0 : maxTok < get_message_tokens tok m0) :
    Agent._cut_input_messages tok maxTok (m0 :: rest) = .error .systemTooLong := by
  simp only [Agent._cut_input_messages, if_pos h0]

/-- Truncation branch: when the first, second and last message together
exceed the budget (but the first alone does not), the cut returns exactly
`[system, goal]` as the new baseline and `[system, goal, truncated current]`,
where the truncation index is the source's binary search. -/
theorem cut_trunc (tok : String → Nat) (maxTok : Nat) (m0 m1 : Message)
    (rest1 : List Message)
    (h0 : ¬ maxTok < get_message_tokens tok m0)
    (htr : maxTok < get_message_tokens tok m0 + get_message_tokens tok m1
        + get_message_tokens tok (((m1 :: rest1).getLast?).getD m1)) :
    Agent._cut_input_messages tok maxTok (m0 :: m1 :: rest1) =
      .ok ([m0, m1],
        [m0, m1,
          (((m1 :: rest1).getLast?).getD m1).setContent
            (strTake (((m1 :: rest1).getLast?).getD m1).content
              (bsearch
                (fun mid => decide
                  ((maxTok : Int) - (get_message_tokens tok m0 : Int)
                      - (get_message_tokens tok m1 : Int)
                    < (tok (strTake
                        (get_buffer_string_one (((m1 :: rest1).getLast?).getD m1)) mid) : Int)))
                0 (((m1 :: rest1).getLast?).getD m1).content.length))]) := by
  simp only [Agent._cut_input_messages, if_neg h0, if_pos htr]

/-- Eviction branch: when system + goal + newest message fit the budget, the
cut runs the index-2 eviction loop and persists the retained list minus its
last element. -/
theorem cut_evict (tok : String → Nat) (maxTok : Nat) (m0 m1 : Message)
    (rest1 : List Message)
    (h0 : ¬ maxTok < get_message_tokens tok m0)
    (htr : ¬ maxTok < get_message_tokens tok m0 + get_message_tokens tok m1
        + get_message_tokens tok (((m1 :: rest1).getLast?).getD m1)) :
    Agent._cut_input_messages tok maxTok (m0 :: m1 :: rest1) =
      .ok ((evictLoop maxTok (Agent._calc_token_count tok (m0 :: m1 :: rest1))
            (m0 :: m1 :: rest1)).2.dropLast,
        (evictLoop maxTok (Agent._calc_token_count tok (m0 :: m1 :: rest1))
            (m0 :: m1 :: rest1)).2) := by
  simp only [Agent._cut_input_messages, if_neg h0, if_neg htr]

/-! ### The result-folding update -/

/-- The messages that one `_update_messages_with_result` call appends after
the `include_in_memory` filter: extracted content if truthy, error if truthy,
a single empty Human message if neither. -/
def updateTail (result : ActionResult) : List Message :=
  (if truthy result.extracted_content then
      [HumanMessage (result.extracted_content.getD (""))] else [])
    ++ (if truthy result.error then [HumanMessage (result.error.getD (""))] else [])
    ++ (if !truthy result.extracted_content && !truthy result.error then
      [HumanMessage ("")] else [])

/-- `_update_messages_with_result` is the `include_in_memory` filter followed
by the appended tail. -/
theorem update_eq (msgs : List Message) (result : ActionResult) :
    Agent._update_messages_with_result msgs result
      = msgs.filter Message.keepInMemory ++ updateTail result := by
  by_cases hec : truthy result.extracted_content
  · by_cases herr : truthy result.error
    · simp [Agent._update_messages_with_result, updateTail, hec, herr]
    · simp [Agent._update_messages_with_result, updateTail, hec, herr]
  · by_cases herr : truthy result.error
    · simp [Agent._update_messages_with_result, updateTail, hec, herr]
    · simp [Agent._update_messages_with_result, updateTail, hec, herr]

/-- The appended tail is never empty. -/
theorem updateTail_len (result : ActionResult) : 1 ≤ (updateTail result).length := by
  by_cases hec : truthy result.extracted_content
  · by_cases herr : truthy result.error
    · simp [updateTail, hec, herr]
    · simp [updateTail, hec, herr]
  · by_cases herr : truthy result.error
    · simp [updateTail, hec, herr]
    · simp [updateTail, hec, herr]

/-- Every appended message is a Human message. -/
theorem updateTail_human (result : ActionResult) :
    ∀ m ∈ updateTail result, m.isHuman = true := by
  intro m hm
  by_cases hec : truthy result.extracted_content
  · by_cases herr : truthy result.error
    · simp [updateTail, hec, herr] at hm
      rcases hm with hm | hm <;> simp [hm, HumanMessage, Message.isHuman]
    · simp [updateTail, hec, herr] at hm
      simp [hm, HumanMessage, Message.isHuman]
  · by_cases herr : truthy result.error
    · simp [updateTail, hec, herr] at hm
      simp [hm, HumanMessage, Message.isHuman]
    · simp [updateTail, hec, herr] at hm
      simp [hm, HumanMessage, Message.isHuman]

/-! ### The pinned-conversation invariant -/

/-- The message list starts with the system message, then the pinned task
message `Your task is: {task}` (whose `include_in_memory` flag is true), and
no later message is a System message. -/
def PinnedMsgs (sysContent task : String) (msgs : List Message) : Prop :=
  ∃ rest, msgs = Message.system sysContent
      :: HumanMessage ("Your task is: " ++ task) :: rest
    ∧ ∀ m ∈ rest, m.isSystem = false

/-- The agent state's conversation satisfies the pinned invariant. -/
def Pinned (st : AgentState) : Prop :=
  PinnedMsgs st.sysContent st.task st.messages

/-- A Human message is not a System message. -/
theorem isSystem_of_isHuman (m : Message) (h : m.isHuman = true) :
    m.isSystem = false := by
  cases m with
  | system c => simp [Message.isHuman] at h
  | human c mem => rfl
  | ai c => rfl

/-- `setContent` does not change the message kind. -/
theorem isSystem_setContent (m : Message) (c : String) :
    (m.setContent c).isSystem = m.isSystem := by
  cases m <;> rfl

/-- Appending non-System messages preserves the pinned invariant. -/
theorem pinnedMsgs_append (s t : String) (msgs tail : List Message)
    (h : PinnedMsgs s t msgs) (htail : ∀ m ∈ tail, m.isSystem = false) :
    PinnedMsgs s t (msgs ++ tail) := by
  obtain ⟨rest, hm, hr⟩ := h
  refine ⟨rest ++ tail, by simp [hm], ?_⟩
  intro m hm'
  rcases List.mem_append.mp hm' with h | h
  · exact hr m h
  · exact htail m h

/-- The `include_in_memory` filter keeps the two pinned messages and only
removes messages from the tail. -/
theorem pinnedMsgs_filter (s t : String) (msgs : List Message)
    (h : PinnedMsgs s t msgs) :
    PinnedMsgs s t (msgs.filter Message.keepInMemory) := by
  obtain ⟨rest, hm, hr⟩ := h
  subst hm
  refine ⟨rest.filter Message.keepInMemory, ?_, ?_⟩
  · simp [List.filter, Message.keepInMemory, HumanMessage]
  · intro m hm'
    exact hr m (List.mem_of_mem_filter hm')

/-- `_update_messages_with_result` preserves the pinned invariant: the
filter keeps the System and task messages and the appended messages are
Human messages. -/
theorem update_pinned (s t : String) (msgs : List Message) (result : ActionResult)
    (h : PinnedMsgs s t msgs) :
    PinnedMsgs s t (Agent._update_messages_with_result msgs result) := by
  rw [update_eq]
  exact pinnedMsgs_append s t _ _ (pinnedMsgs_filter s t msgs h)
    (fun m hm => isSystem_of_isHuman m (updateTail_human result m hm))

/-! ### The error handler and step unfoldings -/

/-- The side-effect trace of `_handle_step_error` for each error class:
rate-limit errors sleep `retry_delay` seconds before the counter increment,
every class increments the counter. -/
def handlerEvents (e : PyErr) (retry_delay : Nat) : List AgentEvent :=
  match e with
  | .rateLimitError _ => [.sleep retry_delay, .incrFailures]
  | _ => [.incrFailures]

/-- The synthetic result `_handle_step_error` returns. -/
def errResult (e : PyErr) : ActionResult :=
  { extracted_content := none, error := some (AgentError.format_error e),
    include_in_memory := true, is_done := false }

/-- Closed form of `_handle_step_error`: every class increments the failure
counter by exactly one and returns the synthetic error result; only the
rate-limit class sleeps, and it does so before the increment. -/
theorem handle_eq (e : PyErr) (f rd : Nat) :
    Agent._handle_step_error e f rd = (handlerEvents e rd, f + 1, errResult e) := by
  cases e <;> rfl

/-- Closed form of `handleAndFinish`. -/
theorem handleAndFinish_eq (st : AgentState) (state : BrowserState) (e : PyErr) :
    Agent.handleAndFinish st state e =
      Agent.finishStep
        { st with
            consecutive_failures := st.consecutive_failures + 1,
            trace := st.trace ++ handlerEvents e st.retry_delay }
        none state (errResult e) := by
  simp [Agent.handleAndFinish, handle_eq]

/-- Appending to a string of nonzero length never yields the empty string. -/
theorem append_ne_empty (s m : String) (hs : s.length ≠ 0) : ¬ (s ++ m = "") := by
  intro h
  have hl := congrArg String.length h
  rw [String.length_append] at hl
  have h0 : ("" : String).length = 0 := rfl
  omega

/-- `format_error` never produces the empty string, so the synthetic error
is truthy and is folded into the conversation. -/
theorem format_error_truthy (e : PyErr) :
    truthy (some (AgentError.format_error e)) = true := by
  cases e with
  | validationError m =>
    have hne := append_ne_empty ("Invalid model output format: ") m (by decide)
    simp [truthy, AgentError.format_error, hne]
  | valueError m =>
    have hne := append_ne_empty ("Value error: ") m (by decide)
    simp [truthy, AgentError.format_error, hne]
  | rateLimitError m =>
    have hne := append_ne_empty ("Rate limit reached: ") m (by decide)
    simp [truthy, AgentError.format_error, hne]
  | otherError m =>
    have hne := append_ne_empty ("Unexpected error: ") m (by decide)
    simp [truthy, AgentError.format_error, hne]

/-- Unfolding of `step` when the cut raises. -/
theorem step_cutError (tok : String → Nat) (st : AgentState) (state : BrowserState)
    (t : TryOutcome) (ce : CutError)
    (hcut : Agent._cut_input_messages tok st.max_input_tokens
      (st.messages ++ [AgentMessagePrompt.get_user_message state]) = .error ce) :
    Agent.step tok (.stateOk state t) st = .ok (Agent.handleAndFinish st state ce.toPyErr) := by
  simp only [Agent.step, hcut]

/-- Unfolding of `step` when the cut succeeds and the LLM raises. -/
theorem step_llmRaise (tok : String → Nat) (st : AgentState) (state : BrowserState)
    (e : PyErr) (base ret : List Message)
    (hcut : Agent._cut_input_messages tok st.max_input_tokens
      (st.messages ++ [AgentMessagePrompt.get_user_message state]) = .ok (base, ret)) :
    Agent.step tok (.stateOk state (.llmRaise e)) st =
      .ok (Agent.handleAndFinish { st with messages := base } state e) := by
  simp only [Agent.step, hcut]

/-- Unfolding of `step` when the cut and LLM succeed and the action raises:
the AI message was already appended and `n_steps` already advanced. -/
theorem step_actRaise (tok : String → Nat) (st : AgentState) (state : BrowserState)
    (out : AgentOutput) (e : PyErr) (base ret : List Message)
    (hcut : Agent._cut_input_messages tok st.max_input_tokens
      (st.messages ++ [AgentMessagePrompt.get_user_message state]) = .ok (base, ret)) :
    Agent.step tok (.stateOk state (.actRaise out e)) st =
      .ok (Agent.handleAndFinish
        { st with
            messages := base ++ [Message.ai out.dump],
            n_steps := st.n_steps + 1 }
        state e) := by
  simp only [Agent.step, hcut]

/-- Unfolding of `step` on full success: the failure counter is reset to 0
before the result is folded in and the history entry appended. -/
theorem step_actOk (tok : String → Nat) (st : AgentState) (state : BrowserState)
    (out : AgentOutput) (result : ActionResult) (base ret : List Message)
    (hcut : Agent._cut_input_messages tok st.max_input_tokens
      (st.messages ++ [AgentMessagePrompt.get_user_message state]) = .ok (base, ret)) :
    Agent.step tok (.stateOk state (.actOk out result)) st =
      .ok (Agent.finishStep
        { st with
            messages := base ++ [Message.ai out.dump],
            n_steps := st.n_steps + 1,
            consecutive_failures := 0 }
        (some out) state result) := by
  simp only [Agent.step, hcut]

/-- Dropping `2 + k` elements of a list with two explicit heads drops `k`
elements of the tail. -/
theorem drop_two_add {α : Type} (a b : α) (l : List α) (k : Nat) :
    (a :: b :: l).drop (2 + k) = l.drop k := by
  rw [show 2 + k = k + 1 + 1 by omega]
  simp [List.drop_succ_cons]

/-- Closed form of `finishStep`. -/
theorem finishStep_eq (st : AgentState) (mo : Option AgentOutput)
    (state : BrowserState) (result : ActionResult) :
    Agent.finishStep st mo state result =
      { st with
          messages := Agent._update_messages_with_result st.messages result,
          history := st.history ++ [{ model_output := mo, result := result, state := state }] } := rfl

/-- The default element returned by `getD` of `getLast?` of a nonempty list
is a member of the list. -/
theorem getLast_getD_mem {α : Type} (a : α) (l : List α) :
    ((a :: l).getLast?).getD a ∈ a :: l := by
  rw [List.getLast?_eq_getLast (a :: l) (by simp)]
  exact List.getLast_mem _

/-- The budget cut preserves the pinned invariant on both the persisted
baseline and the returned list, for inputs of at least 3 messages (every
call site appends the fresh observation to a conversation that starts with
the two pinned messages). -/
theorem cut_pinned (tok : String → Nat) (maxTok : Nat) (s t : String)
    (input base ret : List Message) (hp : PinnedMsgs s t input)
    (hlen : 3 ≤ input.length)
    (h : Agent._cut_input_messages tok maxTok input = .ok (base, ret)) :
    PinnedMsgs s t base ∧ PinnedMsgs s t ret := by
  obtain ⟨rest, hin, hr⟩ := hp
  subst hin
  by_cases h0 : maxTok < get_message_tokens tok (Message.system s)
  · rw [cut_sysTooLong tok maxTok _ _ h0] at h
    cases h
  · by_cases htr : maxTok < get_message_tokens tok (Message.system s)
        + get_message_tokens tok (HumanMessage ("Your task is: " ++ t))
        + get_message_tokens tok
            (((HumanMessage ("Your task is: " ++ t) :: rest).getLast?).getD
              (HumanMessage ("Your task is: " ++ t)))
    · rw [cut_trunc tok maxTok _ _ _ h0 htr] at h
      injection h with h
      rw [Prod.mk.injEq] at h
      obtain ⟨hb, hrt⟩ := h
      subst hb
      subst hrt
      constructor
      · exact ⟨[], rfl, by simp⟩
      · refine ⟨[_], rfl, ?_⟩
        intro m hm
        simp only [List.mem_singleton] at hm
        subst hm
        rw [isSystem_setContent]
        have hmem := getLast_getD_mem (HumanMessage ("Your task is: " ++ t)) rest
        rcases List.mem_cons.mp hmem with hh | hh
        · rw [hh]; rfl
        · exact hr _ hh
    · rw [cut_evict tok maxTok _ _ _ h0 htr] at h
      injection h with h
      rw [Prod.mk.injEq] at h
      obtain ⟨hb, hrt⟩ := h
      have hlen' : 3 ≤ (evictLoop maxTok
          (Agent._calc_token_count tok
            (Message.system s :: HumanMessage ("Your task is: " ++ t) :: rest))
          (Message.system s :: HumanMessage ("Your task is: " ++ t) :: rest)).2.length := by
        apply evictLoopAux_len_ge
        · simp [Agent._calc_token_count]
        · simpa using hlen
      obtain ⟨k, h1, h2, h3⟩ := evictLoopAux_take_drop maxTok
        (Agent._calc_token_count tok
          (Message.system s :: HumanMessage ("Your task is: " ++ t) :: rest)).length
        (Agent._calc_token_count tok
          (Message.system s :: HumanMessage ("Your task is: " ++ t) :: rest))
        (Message.system s :: HumanMessage ("Your task is: " ++ t) :: rest)
        (Nat.le_refl _)
      rw [show evictLoop maxTok
          (Agent._calc_token_count tok
            (Message.system s :: HumanMessage ("Your task is: " ++ t) :: rest))
          (Message.system s :: HumanMessage ("Your task is: " ++ t) :: rest)
          = evictLoopAux maxTok
            (Agent._calc_token_count tok
              (Message.system s :: HumanMessage ("Your task is: " ++ t) :: rest)).length
            (Agent._calc_token_count tok
              (Message.system s :: HumanMessage ("Your task is: " ++ t) :: rest))
            (Message.system s :: HumanMessage ("Your task is: " ++ t) :: rest) from rfl]
        at hb hrt hlen'
      rw [h2] at hb hrt hlen'
    -- retained list is sys :: task :: (rest.drop k)
      rw [show (Message.system s :: HumanMessage ("Your task is: " ++ t) :: rest).take 2
          = [Message.system s, HumanMessage ("Your task is: " ++ t)] from rfl,
        drop_two_add] at hb hrt hlen'
      simp only [List.cons_append, List.nil_append] at hb hrt hlen'
      have hretPinned : PinnedMsgs s t ret := by
        refine ⟨rest.drop k, hrt.symm, ?_⟩
        intro m hm
        exact hr m (List.mem_of_mem_drop hm)
      refine ⟨?_, hretPinned⟩
      -- baseline is the retained list minus its last element
      obtain ⟨k', hk'⟩ : ∃ k', (rest.drop k).length = k' + 1 := by
        have h3' := hlen'
        simp only [List.length_cons] at h3'
        exact ⟨(rest.drop k).length - 1, by omega⟩
      rw [← hb]
      rw [List.dropLast_eq_take]
      simp only [List.length_cons, hk']
      rw [show k' + 1 + 1 + 1 - 1 = k' + 1 + 1 by omega]
      rw [List.take_succ_cons, List.take_succ_cons]
      refine ⟨(rest.drop k).take k', rfl, ?_⟩
      intro m hm
      exact hr m (List.mem_of_mem_drop (List.mem_of_mem_take hm))

/-- `finishStep` preserves the pinned invariant. -/
theorem finishStep_pinned (st : AgentState) (mo : Option AgentOutput)
    (state : BrowserState) (result : ActionResult) (hp : Pinned st) :
    Pinned (Agent.finishStep st mo state result) := by
  rw [finishStep_eq]
  exact update_pinned _ _ _ _ hp

/-- `handleAndFinish` preserves the pinned invariant. -/
theorem handleAndFinish_pinned (st : AgentState) (state : BrowserState) (e : PyErr)
    (hp : Pinned st) : Pinned (Agent.handleAndFinish st state e) := by
  rw [handleAndFinish_eq]
  exact finishStep_pinned _ _ _ _ hp

/-- Once `get_state` has returned, `step` always returns a state (no
exception escapes the `try` block), with exactly one history entry appended
and all configuration fields unchanged. -/
theorem step_ok (tok : String → Nat) (st : AgentState) (state : BrowserState)
    (t : TryOutcome) :
    ∃ st', Agent.step tok (.stateOk state t) st = .ok st'
      ∧ st'.history.length = st.history.length + 1
      ∧ st'.task = st.task ∧ st'.sysContent = st.sysContent
      ∧ st'.max_failures = st.max_failures ∧ st'.retry_delay = st.retry_delay
      ∧ st'.max_input_tokens = st.max_input_tokens := by
  cases hcut : Agent._cut_input_messages tok st.max_input_tokens
      (st.messages ++ [AgentMessagePrompt.get_user_message state]) with
  | error ce =>
    refine ⟨_, step_cutError tok st state t ce hcut, ?_⟩
    rw [handleAndFinish_eq, finishStep_eq]
    simp
  | ok p =>
    obtain ⟨base, ret⟩ := p
    cases t with
    | llmRaise e =>
      refine ⟨_, step_llmRaise tok st state e base ret hcut, ?_⟩
      rw [handleAndFinish_eq, finishStep_eq]
      simp
    | actRaise out e =>
      refine ⟨_, step_actRaise tok st state out e base ret hcut, ?_⟩
      rw [handleAndFinish_eq, finishStep_eq]
      simp
    | actOk out result =>
      refine ⟨_, step_actOk tok st state out result base ret hcut, ?_⟩
      rw [finishStep_eq]
      simp

/-- A completed `step` preserves the pinned invariant. -/
theorem step_pinned (tok : String → Nat) (o : StepOutcome) (st st' : AgentState)
    (hp : Pinned st) (h : Agent.step tok o st = .ok st') : Pinned st' := by
  cases o with
  | stateRaise e => simp [Agent.step] at h
  | stateOk state t =>
    have hobs : ∀ m ∈ [AgentMessagePrompt.get_user_message state], m.isSystem = false := by
      intro m hm
      simp only [List.mem_singleton] at hm
      subst hm
      rfl
    have hin : PinnedMsgs st.sysContent st.task
        (st.messages ++ [AgentMessagePrompt.get_user_message state]) :=
      pinnedMsgs_append _ _ _ _ hp hobs
    have hlenIn : 3 ≤ (st.messages ++ [AgentMessagePrompt.get_user_message state]).length := by
      obtain ⟨rest, hm, _⟩ := hp
      rw [hm]
      simp
    cases hcut : Agent._cut_input_messages tok st.max_input_tokens
        (st.messages ++ [AgentMessagePrompt.get_user_message state]) with
    | error ce =>
      rw [step_cutError tok st state t ce hcut] at h
      injection h with h
      subst h
      exact handleAndFinish_pinned _ _ _ hp
    | ok p =>
      obtain ⟨base, ret⟩ := p
      have hbase : PinnedMsgs st.sysContent st.task base :=
        (cut_pinned tok st.max_input_tokens st.sysContent st.task _ base ret hin hlenIn hcut).1
      cases t with
      | llmRaise e =>
        rw [step_llmRaise tok st state e base ret hcut] at h
        injection h with h
        subst h
        exact handleAndFinish_pinned _ _ _ hbase
      | actRaise out e =>
        rw [step_actRaise tok st state out e base ret hcut] at h
        injection h with h
        subst h
        apply handleAndFinish_pinned
        exact pinnedMsgs_append _ _ _ _ hbase (by intro m hm; simp at hm; subst hm; rfl)
      | actOk out result =>
        rw [step_actOk tok st state out result base ret hcut] at h
        injection h with h
        subst h
        apply finishStep_pinned
        exact pinnedMsgs_append _ _ _ _ hbase (by intro m hm; simp at hm; subst hm; rfl)

/-- The run loop preserves the pinned invariant. -/
theorem runLoop_pinned (tok : String → Nat) (env : Nat → StepOutcome) :
    ∀ n st k st', Pinned st → Agent.runLoop tok env st k n = .ok st' → Pinned st' := by
  intro n
  induction n with
  | zero =>
    intro st k st' hp h
    injection h with h
    subst h
    exact hp
  | succ n ih =>
    intro st k st' hp h
    by_cases htm : Agent._too_many_failures st
    · simp only [Agent.runLoop, htm, if_true] at h
      injection h with h
      subst h
      exact hp
    · simp only [Agent.runLoop, htm, Bool.false_eq_true, if_false] at h
      cases hstep : Agent.step tok (env k) st with
      | error e => rw [hstep] at h; cases h
      | ok st1 =>
        rw [hstep] at h
        have hp1 : Pinned st1 := step_pinned tok (env k) st st1 hp hstep
        by_cases hdone : Agent._is_task_complete st1
        · simp only [hdone, if_true] at h
          injection h with h
          subst h
          exact hp1
        · simp only [hdone, Bool.false_eq_true, if_false] at h
          exact ih st1 (k + 1) st' hp1 h

/-- A run whose environment never raises in `get_state` always returns a
final state, and each executed step appends exactly one history entry, so
the history grows by at most the fuel. -/
theorem runLoop_ok (tok : String → Nat) (env : Nat → StepOutcome)
    (henv : ∀ j, (env j).isStateRaise = false) :
    ∀ n st k, ∃ st', Agent.runLoop tok env st k n = .ok st'
      ∧ st'.history.length ≤ st.history.length + n := by
  intro n
  induction n with
  | zero => intro st k; exact ⟨st, rfl, Nat.le_refl _⟩
  | succ n ih =>
    intro st k
    by_cases htm : Agent._too_many_failures st
    · exact ⟨st, by simp [Agent.runLoop, htm], by omega⟩
    · cases henvk : env k with
      | stateRaise e =>
        have := henv k
        rw [henvk] at this
        cases this
      | stateOk state t =>
        obtain ⟨st1, hs1, hlen1, _⟩ := step_ok tok st state t
        by_cases hdone : Agent._is_task_complete st1
        · refine ⟨st1, ?_, by omega⟩
          simp only [Agent.runLoop, htm, Bool.false_eq_true, if_false, henvk, hs1, hdone, if_true]
        · obtain ⟨st', hs', hlen'⟩ := ih st1 (k + 1)
          refine ⟨st', ?_, by omega⟩
          simp only [Agent.runLoop, htm, Bool.false_eq_true, if_false, henvk, hs1, hdone,
            Bool.false_eq_true, if_false]
          exact hs'

/-- The history of a completed run grows by at most the fuel, environment
raising or not. -/
theorem runLoop_history_bound (tok : String → Nat) (env : Nat → StepOutcome) :
    ∀ n st k st', Agent.runLoop tok env st k n = .ok st' →
      st'.history.length ≤ st.history.length + n := by
  intro n
  induction n with
  | zero =>
    intro st k st' h
    injection h with h
    subst h
    exact Nat.le_refl _
  | succ n ih =>
    intro st k st' h
    by_cases htm : Agent._too_many_failures st
    · simp only [Agent.runLoop, htm, if_true] at h
      injection h with h
      subst h
      omega
    · simp only [Agent.runLoop, htm, Bool.false_eq_true, if_false] at h
      cases hstep : Agent.step tok (env k) st with
      | error e => rw [hstep] at h; cases h
      | ok st1 =>
        rw [hstep] at h
        have hlen1 : st1.history.length = st.history.length + 1 := by
          cases henvk : env k with
          | stateRaise e => rw [henvk] at hstep; simp [Agent.step] at hstep
          | stateOk state t =>
            rw [henvk] at hstep
            obtain ⟨st2, hs2, hl2, _⟩ := step_ok tok st state t
            rw [hs2] at hstep
            injection hstep with hstep
            subst hstep
            exact hl2
        by_cases hdone : Agent._is_task_complete st1
        · simp only [hdone, if_true] at h
          injection h with h
          subst h
          omega
        · simp only [hdone, Bool.false_eq_true, if_false] at h
          have := ih st1 (k + 1) st' h
          omega

/-! ### Concrete instances used by witnesses and counterexamples -/

/-- A concrete tokenizer: one token per character of the buffer string. -/
def lenTok (s : String) : Nat := s.length

/-- A concrete system message. -/
def exSys : Message := Message.system ("S")

/-- A concrete task message. -/
def exTask : Message := Message.human ("T") true

/-- A concrete newest observation message with 4 characters of content. -/
def exObs : Message := Message.human ("abcd") true

/-- A second concrete history message. -/
def exHist : Message := Message.ai ("aaaaaaaaaaaaaaaaaaaa")

/-- A concrete browser state. -/
def exState : BrowserState := { url := "u", elements := "els" }

/-- A concrete agent with `max_failures = 2` and a large budget. -/
def exAgent : AgentState := Agent.mk ("t") ("S") 2 10 1000

/-- A concrete agent whose budget is below the system message's token
count (`lenTok "System: S" = 9 > 5`). -/
def exAgentSmall : AgentState := Agent.mk ("t") ("S") 2 10 5

/-- An environment whose every step fails inside the `try` block with a
generic exception. -/
def exEnvFail : Nat → StepOutcome :=
  fun _ => .stateOk exState (.llmRaise (.otherError ("boom")))

/-- An environment whose first `get_state` call raises. -/
def exEnvCrash : Nat → StepOutcome :=
  fun _ => .stateRaise (.otherError ("page detached"))

/-- A concrete successful action result. -/
def exOkResult : ActionResult :=
  { extracted_content := some ("done"), error := none,
    include_in_memory := false, is_done := false }

/-- A concrete result carrying no information at all. -/
def exEmptyResult : ActionResult :=
  { extracted_content := none, error := none,
    include_in_memory := false, is_done := false }

/-! ### C7 -/

/-- C7: the eviction loop of `_cut_input_messages` removes only messages at
index 2; it never removes the message at index 0 (system), at index 1
(task), or the final message (the newest observation), and it terminates
exactly when the total token count is within `max_input_tokens` or only 3
messages remain. -/
theorem c7_eviction_only_index_two (maxTok : Nat) (tcs : List Nat) (msgs : List Message) :
    ∃ k, (evictLoop maxTok tcs msgs).1 = tcs.take 2 ++ tcs.drop (2 + k)
      ∧ (evictLoop maxTok tcs msgs).2 = msgs.take 2 ++ msgs.drop (2 + k)
      ∧ (k = 0 ∨ 3 + k ≤ tcs.length)
      ∧ ¬ (maxTok < (evictLoop maxTok tcs msgs).1.sum
            ∧ 3 < (evictLoop maxTok tcs msgs).1.length)
      ∧ (¬ (maxTok < tcs.sum ∧ 3 < tcs.length) → evictLoop maxTok tcs msgs = (tcs, msgs))
      ∧ (tcs.length = msgs.length ∧ 3 ≤ msgs.length →
          (evictLoop maxTok tcs msgs).2.take 2 = msgs.take 2
          ∧ (evictLoop maxTok tcs msgs).2.getLast? = msgs.getLast?
          ∧ 3 ≤ (evictLoop maxTok tcs msgs).2.length) := by
  obtain ⟨k, h1, h2, h3⟩ :=
    evictLoopAux_take_drop maxTok tcs.length tcs msgs (Nat.le_refl _)
  rw [show evictLoopAux maxTok tcs.length tcs msgs = evictLoop maxTok tcs msgs from rfl]
    at h1 h2
  refine ⟨k, h1, h2, h3, evictLoopAux_stop maxTok tcs.length tcs msgs (Nat.le_refl _),
    evictLoopAux_noop maxTok tcs.length tcs msgs, ?_⟩
  rintro ⟨hsync, hlen⟩
  refine ⟨?_, ?_, evictLoopAux_len_ge maxTok tcs.length tcs msgs hsync hlen⟩
  · rw [h2, List.take_append_eq_append_take]
    have htl : (msgs.take 2).length = 2 := by
      rw [List.length_take]
      omega
    rw [htl, List.take_of_length_le (by omega), Nat.sub_self, List.take_zero,
      List.append_nil]
  · rcases h3 with h3 | h3
    · subst h3
      rw [h2, List.take_append_drop]
    · have hne : msgs.drop (2 + k) ≠ [] := by
        apply List.ne_nil_of_length_pos
        rw [List.length_drop]
        omega
      rw [h2, List.getLast?_append_of_ne_nil _ hne]
      conv_rhs => rw [← List.take_append_drop (2 + k) msgs]
      rw [List.getLast?_append_of_ne_nil _ hne]

/-- C7 witness: a concrete run of the eviction loop (budget 5, counts
`[1, 1, 9, 1]`): one message is evicted at index 2 and the first two and the
last message survive. -/
theorem c7_witness : ∃ k,
    (evictLoop 5 [1, 1, 9, 1] [exSys, exTask, exHist, exObs]).1
        = [1, 1, 9, 1].take 2 ++ [1, 1, 9, 1].drop (2 + k)
      ∧ (evictLoop 5 [1, 1, 9, 1] [exSys, exTask, exHist, exObs]).2
        = [exSys, exTask, exHist, exObs].take 2
          ++ [exSys, exTask, exHist, exObs].drop (2 + k)
      ∧ (k = 0 ∨ 3 + k ≤ ([1, 1, 9, 1] : List Nat).length)
      ∧ ¬ (5 < (evictLoop 5 [1, 1, 9, 1] [exSys, exTask, exHist, exObs]).1.sum
            ∧ 3 < (evictLoop 5 [1, 1, 9, 1] [exSys, exTask, exHist, exObs]).1.length)
      ∧ (¬ (5 < ([1, 1, 9, 1] : List Nat).sum ∧ 3 < ([1, 1, 9, 1] : List Nat).length) →
          evictLoop 5 [1, 1, 9, 1] [exSys, exTask, exHist, exObs]
            = ([1, 1, 9, 1], [exSys, exTask, exHist, exObs]))
      ∧ (([1, 1, 9, 1] : List Nat).length = ([exSys, exTask, exHist, exObs] : List Message).length
          ∧ 3 ≤ ([exSys, exTask, exHist, exObs] : List Message).length →
          (evictLoop 5 [1, 1, 9, 1] [exSys, exTask, exHist, exObs]).2.take 2
            = [exSys, exTask, exHist, exObs].take 2
          ∧ (evictLoop 5 [1, 1, 9, 1] [exSys, exTask, exHist, exObs]).2.getLast?
            = ([exSys, exTask, exHist, exObs] : List Message).getLast?
          ∧ 3 ≤ (evictLoop 5 [1, 1, 9, 1] [exSys, exTask, exHist, exObs]).2.length) :=
  c7_eviction_only_index_two 5 [1, 1, 9, 1] [exSys, exTask, exHist, exObs]

/-! ### C9 -/

/-- C9: whenever `_cut_input_messages` returns normally, the persisted
baseline `self.messages` equals the returned message list with its final
element (the just-added observation) removed. -/
theorem c9_baseline_drops_last (tok : String → Nat) (maxTok : Nat)
    (input base ret : List Message)
    (h : Agent._cut_input_messages tok maxTok input = .ok (base, ret)) :
    base = ret.dropLast := by
  cases input with
  | nil =>
    rw [show Agent._cut_input_messages tok maxTok [] = .error .indexError from rfl] at h
    cases h
  | cons m0 rest =>
    by_cases h0 : maxTok < get_message_tokens tok m0
    · rw [cut_sysTooLong tok maxTok m0 rest h0] at h
      cases h
    · cases rest with
      | nil =>
        rw [show Agent._cut_input_messages tok maxTok [m0]
            = if maxTok < get_message_tokens tok m0 then Except.error CutError.systemTooLong
              else Except.error CutError.indexError from rfl, if_neg h0] at h
        cases h
      | cons m1 rest1 =>
        by_cases htr : maxTok < get_message_tokens tok m0 + get_message_tokens tok m1
            + get_message_tokens tok (((m1 :: rest1).getLast?).getD m1)
        · rw [cut_trunc tok maxTok m0 m1 rest1 h0 htr] at h
          injection h with h
          rw [Prod.mk.injEq] at h
          obtain ⟨hb, hrt⟩ := h
          subst hb
          subst hrt
          rfl
        · rw [cut_evict tok maxTok m0 m1 rest1 h0 htr] at h
          injection h with h
          rw [Prod.mk.injEq] at h
          obtain ⟨hb, hrt⟩ := h
          subst hb
          subst hrt
          rfl

/-- C9 witness: on a concrete eviction-branch call the persisted baseline is
the returned list minus the observation. -/
theorem c9_witness :
    ([exSys, exTask] : List Message) = ([exSys, exTask, exObs] : List Message).dropLast :=
  c9_baseline_drops_last lenTok 30 [exSys, exTask, exObs] [exSys, exTask] [exSys, exTask, exObs]
    (by decide)

/-! ### C10 -/

/-- C10: every `_update_messages_with_result` call appends at least one Human
message after the `include_in_memory` filter: one with the extracted content
when that field is truthy, one with the error when that field is truthy (two
when both), and exactly one empty Human message when neither is truthy. -/
theorem c10_update_always_appends (msgs : List Message) (result : ActionResult) :
    Agent._update_messages_with_result msgs result
      = msgs.filter Message.keepInMemory ++ updateTail result
    ∧ 1 ≤ (updateTail result).length
    ∧ (∀ m ∈ updateTail result, m.isHuman = true)
    ∧ (truthy result.extracted_content = true → truthy result.error = true →
        updateTail result = [HumanMessage (result.extracted_content.getD ("")),
          HumanMessage (result.error.getD (""))])
    ∧ (truthy result.extracted_content = true → truthy result.error = false →
        updateTail result = [HumanMessage (result.extracted_content.getD (""))])
    ∧ (truthy result.extracted_content = false → truthy result.error = true →
        updateTail result = [HumanMessage (result.error.getD (""))])
    ∧ (truthy result.extracted_content = false → truthy result.error = false →
        updateTail result = [HumanMessage ("")]) := by
  refine ⟨update_eq msgs result, updateTail_len result, updateTail_human result,
    ?_, ?_, ?_, ?_⟩
  · intro h1 h2
    simp [updateTail, h1, h2]
  · intro h1 h2
    simp [updateTail, h1, h2]
  · intro h1 h2
    simp [updateTail, h1, h2]
  · intro h1 h2
    simp [updateTail, h1, h2]

/-- C10 witness: with an empty result, one empty Human message is appended
after the filter. -/
theorem c10_witness :
    Agent._update_messages_with_result [exSys, exTask] exEmptyResult
      = ([exSys, exTask] : List Message).filter Message.keepInMemory
        ++ updateTail exEmptyResult :=
  (c10_update_always_appends [exSys, exTask] exEmptyResult).1

/-! ### C8 -/

/-- C8: for a fixed input message list (of the call-site shape: at least the
system message, the task message and one observation) and tokenizer, the
number of messages returned by `_cut_input_messages` is monotonically
non-increasing as `max_input_tokens` decreases, over all budgets for which
the call returns without raising. -/
theorem c8_fewer_messages_for_smaller_budget (tok : String → Nat)
    (input : List Message) (b1 b2 : Nat) (hb : b1 ≤ b2) (hlen : 3 ≤ input.length)
    (base1 ret1 base2 ret2 : List Message)
    (h1 : Agent._cut_input_messages tok b1 input = .ok (base1, ret1))
    (h2 : Agent._cut_input_messages tok b2 input = .ok (base2, ret2)) :
    ret1.length ≤ ret2.length := by
  cases input with
  | nil => simp at hlen
  | cons m0 rest =>
    cases rest with
    | nil => simp at hlen
    | cons m1 rest1 =>
      have h0b1 : ¬ b1 < get_message_tokens tok m0 := by
        intro hc
        rw [cut_sysTooLong tok b1 m0 _ hc] at h1
        cases h1
      have h0b2 : ¬ b2 < get_message_tokens tok m0 := by omega
      have hsync : (Agent._calc_token_count tok (m0 :: m1 :: rest1)).length
          = (m0 :: m1 :: rest1).length := by
        simp [Agent._calc_token_count]
      by_cases htr1 : b1 < get_message_tokens tok m0 + get_message_tokens tok m1
          + get_message_tokens tok (((m1 :: rest1).getLast?).getD m1)
      · rw [cut_trunc tok b1 m0 m1 rest1 h0b1 htr1] at h1
        injection h1 with h1
        rw [Prod.mk.injEq] at h1
        obtain ⟨hb1, hr1⟩ := h1
        subst hr1
        by_cases htr2 : b2 < get_message_tokens tok m0 + get_message_tokens tok m1
            + get_message_tokens tok (((m1 :: rest1).getLast?).getD m1)
        · rw [cut_trunc tok b2 m0 m1 rest1 h0b2 htr2] at h2
          injection h2 with h2
          rw [Prod.mk.injEq] at h2
          obtain ⟨hb2, hr2⟩ := h2
          subst hr2
          simp
        · rw [cut_evict tok b2 m0 m1 rest1 h0b2 htr2] at h2
          injection h2 with h2
          rw [Prod.mk.injEq] at h2
          obtain ⟨hb2, hr2⟩ := h2
          subst hr2
          have := evictLoopAux_len_ge b2
            (Agent._calc_token_count tok (m0 :: m1 :: rest1)).length
            (Agent._calc_token_count tok (m0 :: m1 :: rest1)) (m0 :: m1 :: rest1)
            hsync (by simpa using hlen)
          simp only [List.length_cons, List.length_nil]
          exact this
      · have htr2 : ¬ b2 < get_message_tokens tok m0 + get_message_tokens tok m1
            + get_message_tokens tok (((m1 :: rest1).getLast?).getD m1) := by omega
        rw [cut_evict tok b1 m0 m1 rest1 h0b1 htr1] at h1
        rw [cut_evict tok b2 m0 m1 rest1 h0b2 htr2] at h2
        injection h1 with h1
        rw [Prod.mk.injEq] at h1
        obtain ⟨hb1, hr1⟩ := h1
        subst hr1
        injection h2 with h2
        rw [Prod.mk.injEq] at h2
        obtain ⟨hb2, hr2⟩ := h2
        subst hr2
        exact evictLoopAux_mono b1 b2 hb
          (Agent._calc_token_count tok (m0 :: m1 :: rest1)).length
          (Agent._calc_token_count tok (m0 :: m1 :: rest1)) (m0 :: m1 :: rest1)

/-- C8 witness: budget 19 truncates to 3 messages and budget 30 retains all
3 messages of the same input, and 3 is at most 3. -/
theorem c8_witness :
    ([exSys, exTask, Message.human ("abc") true] : List Message).length
      ≤ ([exSys, exTask, exObs] : List Message).length :=
  c8_fewer_messages_for_smaller_budget lenTok [exSys, exTask, exObs] 19 30
    (by omega) (by decide) [exSys, exTask] [exSys, exTask, Message.human ("abc") true]
    [exSys, exTask] [exSys, exTask, exObs] (by decide) (by decide)

/-! ### C4 -/

/-- Length of a Python-style character-prefix. -/
theorem strTake_length (s : String) (n : Nat) : (strTake s n).length = min n s.length := by
  show (s.data.take n).length = min n s.data.length
  exact List.length_take n s.data

/-- C4 counterexample: tokenizer = one token per character, system message
`"S"` (9 buffer tokens), task `"T"` (8 buffer tokens), observation `"abcd"`,
budget 19, so the available budget after system and task is 2.  The cut
truncates the observation to `"abc"`, i.e. the binary-search result is 3,
but the token count of the prefix of length 3 is 3 > 2 — on the content
reading and on the buffer-string reading alike — even though a strictly
shorter prefix (length 1) fits.  The claimed postcondition
`tokens(text[:result]) <= available` is therefore false. -/
theorem c4_counterexample :
    Agent._cut_input_messages lenTok 19 [exSys, exTask, exObs]
      = .ok ([exSys, exTask], [exSys, exTask, Message.human ("abc") true])
    ∧ (lenTok (strTake ("abcd") 1) : Int)
        ≤ (19 : Int) - (get_message_tokens lenTok exSys : Int)
          - (get_message_tokens lenTok exTask : Int)
    ∧ ¬ ((lenTok (strTake ("abcd") 3) : Int)
        ≤ (19 : Int) - (get_message_tokens lenTok exSys : Int)
          - (get_message_tokens lenTok exTask : Int))
    ∧ ¬ ((lenTok (strTake ("Human: abcd") 3) : Int)
        ≤ (19 : Int) - (get_message_tokens lenTok exSys : Int)
          - (get_message_tokens lenTok exTask : Int)) := by
  refine ⟨by decide, by decide, by decide, by decide⟩

/-- C4 amended: in the truncation branch, for a prefix-monotone tokenizer,
the binary search returns the least index at which the token count of the
buffer-string prefix strictly exceeds the available budget (capped at the
content length): every strictly shorter prefix fits, the prefix of length
`result` itself already exceeds the budget whenever `result` is below the
content length (one more character than the longest fitting prefix), and the
observation message is truncated to exactly its first `result` characters. -/
theorem c4_truncation_index (tok : String → Nat) (maxTok : Nat) (m0 m1 : Message)
    (rest1 : List Message)
    (mono : ∀ i j, i ≤ j →
      tok (strTake (get_buffer_string_one (((m1 :: rest1).getLast?).getD m1)) i)
        ≤ tok (strTake (get_buffer_string_one (((m1 :: rest1).getLast?).getD m1)) j))
    (h0 : ¬ maxTok < get_message_tokens tok m0)
    (htr : maxTok < get_message_tokens tok m0 + get_message_tokens tok m1
        + get_message_tokens tok (((m1 :: rest1).getLast?).getD m1)) :
    ∃ r, Agent._cut_input_messages tok maxTok (m0 :: m1 :: rest1)
        = .ok ([m0, m1],
          [m0, m1, (((m1 :: rest1).getLast?).getD m1).setContent
            (strTake (((m1 :: rest1).getLast?).getD m1).content r)])
      ∧ r ≤ (((m1 :: rest1).getLast?).getD m1).content.length
      ∧ (∀ i, i < r →
          (tok (strTake (get_buffer_string_one (((m1 :: rest1).getLast?).getD m1)) i) : Int)
            ≤ (maxTok : Int) - (get_message_tokens tok m0 : Int)
              - (get_message_tokens tok m1 : Int))
      ∧ (r < (((m1 :: rest1).getLast?).getD m1).content.length →
          (maxTok : Int) - (get_message_tokens tok m0 : Int)
              - (get_message_tokens tok m1 : Int)
            < (tok (strTake (get_buffer_string_one (((m1 :: rest1).getLast?).getD m1)) r) : Int)) := by
  have hmono : ∀ i j, i ≤ j →
      (fun mid => decide
        ((maxTok : Int) - (get_message_tokens tok m0 : Int)
            - (get_message_tokens tok m1 : Int)
          < (tok (strTake
              (get_buffer_string_one (((m1 :: rest1).getLast?).getD m1)) mid) : Int))) i = true →
      (fun mid => decide
        ((maxTok : Int) - (get_message_tokens tok m0 : Int)
            - (get_message_tokens tok m1 : Int)
          < (tok (strTake
              (get_buffer_string_one (((m1 :: rest1).getLast?).getD m1)) mid) : Int))) j = true := by
    intro i j hij hpi
    simp only [decide_eq_true_eq] at hpi ⊢
    calc (maxTok : Int) - (get_message_tokens tok m0 : Int)
          - (get_message_tokens tok m1 : Int)
        < (tok (strTake (get_buffer_string_one (((m1 :: rest1).getLast?).getD m1)) i) : Int) := hpi
      _ ≤ (tok (strTake (get_buffer_string_one (((m1 :: rest1).getLast?).getD m1)) j) : Int) := by
          exact_mod_cast mono i j hij
  obtain ⟨hle, hbelow, hat⟩ := bsearch_spec _ hmono
    ((((m1 :: rest1).getLast?).getD m1).content.length)
  refine ⟨_, cut_trunc tok maxTok m0 m1 rest1 h0 htr, hle, ?_, ?_⟩
  · intro i hi
    have hfalse := hbelow i hi
    simp only [decide_eq_false_iff_not] at hfalse
    omega
  · intro hr
    have htrue := hat hr
    simp only [decide_eq_true_eq] at htrue
    exact htrue

/-- C4 witness: the amended characterization at the concrete counterexample
input — the cut index is least-exceeding: prefixes shorter than the result
fit, and the result exceeds the available budget. -/
theorem c4_witness :
    ∃ r, Agent._cut_input_messages lenTok 19 [exSys, exTask, exObs]
        = .ok ([exSys, exTask], [exSys, exTask, exObs.setContent (strTake exObs.content r)])
      ∧ r ≤ exObs.content.length
      ∧ (∀ i, i < r →
          (lenTok (strTake (get_buffer_string_one exObs) i) : Int)
            ≤ (19 : Int) - (get_message_tokens lenTok exSys : Int)
              - (get_message_tokens lenTok exTask : Int))
      ∧ (r < exObs.content.length →
          (19 : Int) - (get_message_tokens lenTok exSys : Int)
              - (get_message_tokens lenTok exTask : Int)
            < (lenTok (strTake (get_buffer_string_one exObs) r) : Int)) :=
  c4_truncation_index lenTok 19 exSys exTask [exObs]
    (by
      intro i j hij
      simp only [lenTok, strTake_length]
      omega)
    (by decide) (by decide)

/-! ### C1 and C2 -/

/-- The non-empty variant of `format_error_truthy`. -/
theorem format_error_ne (e : PyErr) : AgentError.format_error e ≠ "" := by
  have h := format_error_truthy e
  simp only [truthy, Bool.not_eq_true', decide_eq_false_iff_not] at h
  exact h

/-- The tail appended for a synthetic error result is the single Human
message carrying the formatted error. -/
theorem updateTail_errResult (e : PyErr) :
    updateTail (errResult e) = [HumanMessage (AgentError.format_error e)] := by
  have h := format_error_ne e
  simp [updateTail, errResult, truthy, h]

/-- A handled step failure is fully recorded: the formatted error message is
non-empty, the last history entry carries it as `result.error` with
`include_in_memory` true and no model output, and the last conversation
message is a Human message with that error text. -/
def recordsError (st' : AgentState) (e : PyErr) : Prop :=
  AgentError.format_error e ≠ ""
  ∧ (st'.history.getLast?).map (fun h => h.result.error)
      = some (some (AgentError.format_error e))
  ∧ (st'.history.getLast?).map (fun h => h.model_output) = some none
  ∧ (st'.history.getLast?).map (fun h => h.result.include_in_memory) = some true
  ∧ st'.messages.getLast? = some (HumanMessage (AgentError.format_error e))

/-- `handleAndFinish` records the handled error. -/
theorem handleAndFinish_records (st : AgentState) (state : BrowserState) (e : PyErr) :
    recordsError (Agent.handleAndFinish st state e) e := by
  rw [handleAndFinish_eq, finishStep_eq]
  refine ⟨format_error_ne e, ?_, ?_, ?_, ?_⟩
  · simp [List.getLast?_concat, errResult]
  · simp [List.getLast?_concat]
  · simp [List.getLast?_concat, errResult]
  · show (Agent._update_messages_with_result st.messages (errResult e)).getLast?
      = some (HumanMessage (AgentError.format_error e))
    rw [update_eq, updateTail_errResult]
    exact List.getLast?_concat _

/-- C1 amended: once the browser state has been obtained, every exception of
the step body — a `ValueError`/`IndexError` raised by `_cut_input_messages`
itself, an LLM parse/validation/rate-limit error, or an action-execution
error — is caught at the step boundary and converted into an `ActionResult`
with a non-null error that is recorded in the conversation and in the
history, the step appends exactly one history entry and returns normally,
and a run whose environment never raises while obtaining the browser state
returns its history without raising.  (An exception raised by `get_state`
itself, which the source calls before the `try` block, is *not* covered: see
the counterexample.) -/
theorem c1_step_errors_contained (tok : String → Nat) (st : AgentState)
    (state : BrowserState) (t : TryOutcome) (e : PyErr) (out : AgentOutput)
    (base ret : List Message) (env : Nat → StepOutcome) (k n : Nat)
    (henv : ∀ j, (env j).isStateRaise = false) :
    (∃ st', Agent.step tok (.stateOk state t) st = .ok st'
        ∧ st'.history.length = st.history.length + 1)
    ∧ (∀ ce st', Agent._cut_input_messages tok st.max_input_tokens
          (st.messages ++ [AgentMessagePrompt.get_user_message state]) = .error ce →
        Agent.step tok (.stateOk state t) st = .ok st' → recordsError st' ce.toPyErr)
    ∧ (Agent._cut_input_messages tok st.max_input_tokens
          (st.messages ++ [AgentMessagePrompt.get_user_message state]) = .ok (base, ret) →
        (∀ st', Agent.step tok (.stateOk state (.llmRaise e)) st = .ok st' →
            recordsError st' e)
        ∧ (∀ st', Agent.step tok (.stateOk state (.actRaise out e)) st = .ok st' →
            recordsError st' e))
    ∧ (∃ stR, Agent.runLoop tok env st k n = .ok stR) := by
  refine ⟨?_, ?_, ?_, ?_⟩
  · obtain ⟨st', h1, h2, _⟩ := step_ok tok st state t
    exact ⟨st', h1, h2⟩
  · intro ce st' hcut hstep
    rw [step_cutError tok st state t ce hcut] at hstep
    injection hstep with hstep
    subst hstep
    exact handleAndFinish_records st state ce.toPyErr
  · intro hcut
    constructor
    · intro st' hstep
      rw [step_llmRaise tok st state e base ret hcut] at hstep
      injection hstep with hstep
      subst hstep
      exact handleAndFinish_records _ state e
    · intro st' hstep
      rw [step_actRaise tok st state out e base ret hcut] at hstep
      injection hstep with hstep
      subst hstep
      exact handleAndFinish_records _ state e
  · obtain ⟨stR, h1, _⟩ := runLoop_ok tok env henv n st k
    exact ⟨stR, h1⟩

/-- C1 counterexample: an environment error from obtaining the browser state
(`get_state` is called before the `try` block) propagates out of `run()` —
the run returns no history at all, so the claim that every non-BudgetOverflow
exception is caught and `run()` returns the history either way is false. -/
theorem c1_counterexample :
    Agent.run lenTok exEnvCrash exAgent 10 = .error (PyErr.otherError ("page detached")) := by
  rfl

/-- C1 witness: the amended theorem applied to a concrete failing
environment produces a normally-returning run. -/
theorem c1_witness : ∃ stR, Agent.runLoop lenTok exEnvFail exAgent 0 3 = .ok stR :=
  (c1_step_errors_contained lenTok exAgent exState
    (.llmRaise (PyErr.otherError ("boom"))) (PyErr.otherError ("boom"))
    { dump := "d" } [] [] exEnvFail 0 3 (fun _ => rfl)).2.2.2

/-- C2 amended: if the system message alone exceeds `max_input_tokens`,
`_cut_input_messages` raises `ValueError('System message is too long')`, but
this error does **not** propagate out of `step()`: it is caught by the
`ValueError` arm of `_handle_step_error` like an ordinary validation error,
converted into an `ActionResult.error` recorded in the history with no model
output, and counted as an ordinary failure (the counter increases by one);
the run only terminates through the ordinary `max_failures` ceiling, never
by propagation. -/
theorem c2_budget_overflow_is_handled (tok : String → Nat) (st : AgentState)
    (state : BrowserState) (t : TryOutcome) (m0 : Message) (rest : List Message)
    (hmsg : st.messages = m0 :: rest)
    (hbig : st.max_input_tokens < get_message_tokens tok m0) :
    Agent._cut_input_messages tok st.max_input_tokens
        (st.messages ++ [AgentMessagePrompt.get_user_message state])
      = .error .systemTooLong
    ∧ (∀ st', Agent.step tok (.stateOk state t) st = .ok st' →
        st'.consecutive_failures = st.consecutive_failures + 1
        ∧ recordsError st'
            (PyErr.valueError ("System message is too long")))
    ∧ (∃ st', Agent.step tok (.stateOk state t) st = .ok st')
    ∧ (∀ env k n, (∀ j, ((env j : StepOutcome)).isStateRaise = false) →
        ∃ stR, Agent.runLoop tok env st k n = .ok stR) := by
  have hcut : Agent._cut_input_messages tok st.max_input_tokens
      (st.messages ++ [AgentMessagePrompt.get_user_message state])
      = .error .systemTooLong := by
    rw [hmsg, List.cons_append]
    exact cut_sysTooLong tok st.max_input_tokens m0 _ hbig
  refine ⟨hcut, ?_, ?_, ?_⟩
  · intro st' hstep
    rw [step_cutError tok st state t .systemTooLong hcut] at hstep
    injection hstep with hstep
    subst hstep
    constructor
    · rw [handleAndFinish_eq, finishStep_eq]
    · exact handleAndFinish_records st state (CutError.systemTooLong).toPyErr
  · obtain ⟨st', h1, _⟩ := step_ok tok st state t
    exact ⟨st', h1⟩
  · intro env k n henv
    obtain ⟨stR, h1, _⟩ := runLoop_ok tok env henv n st k
    exact ⟨stR, h1⟩

/-- C2 counterexample: with a budget of 5 and a system message of 9 buffer
tokens, a step converts the `ValueError` into a recorded `ActionResult`
error and increments the failure counter instead of propagating (the claim
says it must propagate and never be converted or counted); the run then
terminates through the ordinary failure ceiling after 2 steps, returning
normally. -/
theorem c2_counterexample :
    (Agent.step lenTok (StepOutcome.stateOk exState (TryOutcome.actOk { dump := "d" } exOkResult))
        exAgentSmall).map
        (fun st' => (st'.consecutive_failures,
          (st'.history.getLast?).map (fun h => h.result.error)))
      = .ok (1, some (some ("Value error: System message is too long")))
    ∧ (Agent.run lenTok
        (fun _ => StepOutcome.stateOk exState (TryOutcome.actOk { dump := "d" } exOkResult))
        exAgentSmall 10).map
        (fun s => (s.history.length, s.consecutive_failures)) = .ok (2, 2) := by
  refine ⟨by decide, by decide⟩

/-- C2 witness: the amended theorem applied to the concrete small-budget
agent — the cut raises the budget `ValueError`. -/
theorem c2_witness :
    Agent._cut_input_messages lenTok exAgentSmall.max_input_tokens
        (exAgentSmall.messages ++ [AgentMessagePrompt.get_user_message exState])
      = .error .systemTooLong :=
  (c2_budget_overflow_is_handled lenTok exAgentSmall exState
    (.actOk { dump := "d" } exOkResult) (Message.system ("S"))
    [Message.human ("Your task is: t") true] rfl (by decide)).1

/-! ### C5 -/

/-- C5: `run(max_steps)` executes at most `max_steps` steps (the history
grows by at most the fuel and each completed step appends exactly one
entry); it stops before a step exactly when `consecutive_failures >=
max_failures` (the failure test is checked first and returns the state
untouched), stops after a step exactly when the most recent history entry's
result reports done, and otherwise exhausts the fuel; concretely, with
`max_failures = 2` and every step failing, exactly 2 steps execute and the
returned history has length 2. -/
theorem c5_run_stop_conditions (tok : String → Nat) (env : Nat → StepOutcome)
    (st : AgentState) (k n : Nat) :
    (∀ st', Agent.runLoop tok env st k n = .ok st' →
        st'.history.length ≤ st.history.length + n)
    ∧ (∀ state t, ∃ st', Agent.step tok (.stateOk state t) st = .ok st'
        ∧ st'.history.length = st.history.length + 1)
    ∧ (Agent._too_many_failures st = true → Agent.runLoop tok env st k n = .ok st)
    ∧ (Agent.runLoop tok env st k 0 = .ok st)
    ∧ (Agent._too_many_failures st = false →
        Agent.runLoop tok env st k (n + 1)
          = match Agent.step tok (env k) st with
            | .error e => .error e
            | .ok st1 => if Agent._is_task_complete st1 then .ok st1
                else Agent.runLoop tok env st1 (k + 1) n)
    ∧ (∀ s : AgentState, Agent._too_many_failures s = true
        ↔ s.max_failures ≤ s.consecutive_failures)
    ∧ (∀ s : AgentState, Agent._is_task_complete s = true
        ↔ (s.history.getLast?).map (fun h => h.result.is_done) = some true)
    ∧ ((Agent.run lenTok exEnvFail exAgent 10).map
        (fun s => (s.history.length, s.consecutive_failures)) = .ok (2, 2)) := by
  refine ⟨runLoop_history_bound tok env n st k, ?_, ?_, rfl, ?_, ?_, ?_, by decide⟩
  · intro state t
    obtain ⟨st', h1, h2, _⟩ := step_ok tok st state t
    exact ⟨st', h1, h2⟩
  · intro h
    cases n with
    | zero => rfl
    | succ n => simp [Agent.runLoop, h]
  · intro h
    simp only [Agent.runLoop, h, Bool.false_eq_true, if_false]
  · intro s
    simp [Agent._too_many_failures]
  · intro s
    cases hl : s.history.getLast? with
    | none => simp [Agent._is_task_complete, hl]
    | some h => simp [Agent._is_task_complete, hl]

/-- C5 witness: the concrete two-failure scenario extracted from the claim
theorem: `max_failures = 2`, every step failing, history length 2 after the
run. -/
theorem c5_witness :
    (Agent.run lenTok exEnvFail exAgent 10).map
      (fun s => (s.history.length, s.consecutive_failures)) = .ok (2, 2) :=
  (c5_run_stop_conditions lenTok exEnvFail exAgent 0 9).2.2.2.2.2.2.2

/-! ### C6 -/

/-- C6: after a step whose LLM decision and action execution complete
without an exception, `consecutive_failures` is 0; after a step whose body
raised a handled exception, `consecutive_failures` is exactly one more than
before, the synthetic result has its error set (non-empty, `include_in_memory`
true), and for a rate-limit error a synchronous sleep of `retry_delay` is
taken before the counter increment (`handlerEvents` lists the handler's side
effects in program order, and the step appends them to the trace). -/
theorem c6_failure_counter (tok : String → Nat) (st : AgentState)
    (state : BrowserState) (out : AgentOutput) (result : ActionResult)
    (e : PyErr) (base ret : List Message) (f rd : Nat) :
    (Agent._handle_step_error e f rd = (handlerEvents e rd, f + 1, errResult e))
    ∧ ((errResult e).error = some (AgentError.format_error e)
        ∧ truthy ((errResult e).error) = true
        ∧ (errResult e).include_in_memory = true)
    ∧ (∀ m, handlerEvents (.rateLimitError m) rd = [.sleep rd, .incrFailures])
    ∧ (∀ m, handlerEvents (.validationError m) rd = [.incrFailures])
    ∧ (∀ m, handlerEvents (.valueError m) rd = [.incrFailures])
    ∧ (∀ m, handlerEvents (.otherError m) rd = [.incrFailures])
    ∧ (Agent._cut_input_messages tok st.max_input_tokens
          (st.messages ++ [AgentMessagePrompt.get_user_message state]) = .ok (base, ret) →
        (∀ st', Agent.step tok (.stateOk state (.actOk out result)) st = .ok st' →
            st'.consecutive_failures = 0)
        ∧ (∀ st', Agent.step tok (.stateOk state (.llmRaise e)) st = .ok st' →
            st'.consecutive_failures = st.consecutive_failures + 1
            ∧ st'.trace = st.trace ++ handlerEvents e st.retry_delay)
        ∧ (∀ st', Agent.step tok (.stateOk state (.actRaise out e)) st = .ok st' →
            st'.consecutive_failures = st.consecutive_failures + 1
            ∧ st'.trace = st.trace ++ handlerEvents e st.retry_delay)) := by
  refine ⟨handle_eq e f rd, ⟨rfl, format_error_truthy e, rfl⟩,
    fun m => rfl, fun m => rfl, fun m => rfl, fun m => rfl, ?_⟩
  intro hcut
  refine ⟨?_, ?_, ?_⟩
  · intro st' hstep
    rw [step_actOk tok st state out result base ret hcut] at hstep
    injection hstep with hstep
    subst hstep
    rw [finishStep_eq]
  · intro st' hstep
    rw [step_llmRaise tok st state e base ret hcut] at hstep
    injection hstep with hstep
    subst hstep
    rw [handleAndFinish_eq, finishStep_eq]
    exact ⟨rfl, rfl⟩
  · intro st' hstep
    rw [step_actRaise tok st state out e base ret hcut] at hstep
    injection hstep with hstep
    subst hstep
    rw [handleAndFinish_eq, finishStep_eq]
    exact ⟨rfl, rfl⟩

/-- C6 witness: the handler applied to a concrete rate-limit error with
counter 3 and delay 7 sleeps 7 seconds, then increments the counter to 4,
returning the synthetic error result. -/
theorem c6_witness :
    Agent._handle_step_error (PyErr.rateLimitError ("r")) 3 7
      = ([AgentEvent.sleep 7, AgentEvent.incrFailures], 4,
        errResult (PyErr.rateLimitError ("r"))) :=
  (c6_failure_counter lenTok exAgent exState { dump := "d" } exOkResult
    (PyErr.rateLimitError ("r")) [] [] 3 7).1

/-! ### C3 -/

/-- C3: at every point in a run after initialization the agent's message
list begins with exactly one System message followed by exactly one Human
task message (positions 0 and 1, with no System message anywhere later),
and no operation — initialization, the `include_in_memory` filter of
`_update_messages_with_result`, the budget cut (truncation collapse or
index-2 eviction), a whole `step`, or a whole run loop — ever removes or
displaces these two pinned messages. -/
theorem c3_pinned_conversation :
    (∀ task sysContent max_failures retry_delay max_input_tokens,
        Pinned (Agent.mk task sysContent max_failures retry_delay max_input_tokens))
    ∧ (∀ s t msgs result, PinnedMsgs s t msgs →
        PinnedMsgs s t (Agent._update_messages_with_result msgs result))
    ∧ (∀ tok maxTok s t input base ret, PinnedMsgs s t input → 3 ≤ input.length →
        Agent._cut_input_messages tok maxTok input = .ok (base, ret) →
        PinnedMsgs s t base ∧ PinnedMsgs s t ret)
    ∧ (∀ tok o st st', Pinned st → Agent.step tok o st = .ok st' → Pinned st')
    ∧ (∀ tok env n st k st', Pinned st →
        Agent.runLoop tok env st k n = .ok st' → Pinned st') := by
  refine ⟨?_, ?_, ?_, ?_, ?_⟩
  · intro task sysContent max_failures retry_delay max_input_tokens
    exact ⟨[], rfl, by simp⟩
  · intro s t msgs result h
    exact update_pinned s t msgs result h
  · intro tok maxTok s t input base ret hp hlen h
    exact cut_pinned tok maxTok s t input base ret hp hlen h
  · intro tok o st st' hp h
    exact step_pinned tok o st st' hp h
  · intro tok env n st k st' hp h
    exact runLoop_pinned tok env n st k st' hp h

/-- C3 witness: the pinned invariant at the concrete freshly-initialized
agent, via the claim theorem. -/
theorem c3_witness : Pinned (Agent.mk ("t") ("S") 2 10 1000) :=
  c3_pinned_conversation.1 ("t") ("S") 2 10 1000
